import Mathlib

/-!
# Fractal explorer: viewport mapping and escape-time engine

A shallow embedding of `src/javascript/mandelbrot.js` and
`src/javascript/canvas.js`.

Numbers.  A JavaScript number is modelled in exact arithmetic: a finite
value is a rational, and the three non-finite values `Infinity`,
`-Infinity` and `NaN` are kept, because the source divides without any
guard.  The sign of zero is not modelled: a zero divisor is treated as
`+0`.  The first translation of the source computes without rounding; a
second one (`_scaleR`, `_calculatePixelR`, `redrawAtScaleR`) rounds the
result of every operation, to the nearest double when the rounding is
`round64`.

Globals.  `scaleFactor`, `iterations` and `power` are `let` globals of
`mandelbrot.js`; they are gathered in `Globals`.  `iterations` and
`power` range over the naturals.

Completion.  No function of the source contains a `throw`, so a call
either returns or runs for ever; `Outcome` records how a call ends.

Drawing library.  `color`, `createGraphics`, `translate`, `scale` and the
painting of the cached image belong to the drawing library the page loads;
they are modelled by what they do to the values the source reads back.
-/

namespace FractalExplorer

/-! ## JavaScript numbers in exact arithmetic -/

/-- A JavaScript number: a finite rational, `Infinity`, `-Infinity` or `NaN`. -/
inductive JSNum where
  | fin (q : ℚ)
  | pinf
  | ninf
  | nan
  deriving DecidableEq

namespace JSNum

/-- The infinite value whose sign is the sign of `s`, `NaN` when `s = 0`. -/
def signed (s : ℚ) : JSNum :=
  if 0 < s then pinf else if s < 0 then ninf else nan

/-- Unary minus. -/
def neg : JSNum → JSNum
  | fin a => fin (-a)
  | pinf => ninf
  | ninf => pinf
  | nan => nan

/-- The `+` of the source. -/
def add : JSNum → JSNum → JSNum
  | nan, _ => nan
  | _, nan => nan
  | fin a, fin b => fin (a + b)
  | pinf, ninf => nan
  | ninf, pinf => nan
  | pinf, _ => pinf
  | _, pinf => pinf
  | ninf, _ => ninf
  | _, ninf => ninf

/-- The binary `-` of the source. -/
def sub (a b : JSNum) : JSNum := add a (neg b)

/-- The `*` of the source. -/
def mul : JSNum → JSNum → JSNum
  | nan, _ => nan
  | _, nan => nan
  | fin a, fin b => fin (a * b)
  | fin a, pinf => signed a
  | fin a, ninf => signed (-a)
  | pinf, fin b => signed b
  | ninf, fin b => signed (-b)
  | pinf, pinf => pinf
  | ninf, ninf => pinf
  | pinf, ninf => ninf
  | ninf, pinf => ninf

/-- The `/` of the source.  A finite value divided by zero is `Infinity`,
`-Infinity` or `NaN` according to the sign of the dividend. -/
def div : JSNum → JSNum → JSNum
  | nan, _ => nan
  | _, nan => nan
  | fin a, fin b => if b = 0 then signed a else fin (a / b)
  | fin _, pinf => fin 0
  | fin _, ninf => fin 0
  | pinf, fin b => if b < 0 then ninf else pinf
  | ninf, fin b => if b < 0 then pinf else ninf
  | pinf, pinf => nan
  | pinf, ninf => nan
  | ninf, pinf => nan
  | ninf, ninf => nan

instance : Neg JSNum := ⟨neg⟩
instance : Add JSNum := ⟨add⟩
instance : Sub JSNum := ⟨sub⟩
instance : Mul JSNum := ⟨mul⟩
instance : Div JSNum := ⟨div⟩

/-- The `Math.pow(x, n)` of the source for a natural exponent `n`. -/
def pow (x : JSNum) : ℕ → JSNum
  | 0 => fin 1
  | n + 1 => x * pow x n

/-- The `<=` of the source: false as soon as an operand is `NaN`. -/
def le : JSNum → JSNum → Bool
  | nan, _ => false
  | _, nan => false
  | fin a, fin b => decide (a ≤ b)
  | ninf, _ => true
  | _, pinf => true
  | _, _ => false

/-- The `<` of the source: false as soon as an operand is `NaN`. -/
def lt : JSNum → JSNum → Bool
  | nan, _ => false
  | _, nan => false
  | fin a, fin b => decide (a < b)
  | pinf, _ => false
  | _, ninf => false
  | _, _ => true

/-- Whether the number is finite (`Number.isFinite`). -/
def isFinite : JSNum → Bool
  | fin _ => true
  | _ => false

end JSNum

open JSNum

/-! ## Completion of a call -/

/-- The two error kinds the specification names.  The source raises neither. -/
inductive ErrorKind where
  | DegenerateRangeError
  | InvalidViewportError
  deriving DecidableEq

/-- How a call ends: it returns a value, throws, or never ends. -/
inductive Outcome (α : Type) where
  | returned (value : α)
  | threw (e : ErrorKind)
  | diverged
  deriving DecidableEq

/-- Sequencing of two calls. -/
def Outcome.bind {α β : Type} : Outcome α → (α → Outcome β) → Outcome β
  | .returned a, f => f a
  | .threw e, _ => .threw e
  | .diverged, _ => .diverged

instance : Monad Outcome where
  pure := Outcome.returned
  bind := Outcome.bind

/-! ## mandelbrot.js -/

/-- The `let` globals of `mandelbrot.js`. -/
structure Globals where
  scaleFactor : JSNum
  iterations : ℕ
  power : ℕ
  deriving DecidableEq

/-- The values the source gives the globals: `2`, `100`, `2`. -/
def Globals.initial : Globals := ⟨fin 2, 100, 2⟩

/-- Method `_scale(num, minVal, maxVal, lRange, rRange)`. -/
def _scale (num minVal maxVal lRange rRange : JSNum) : Outcome JSNum := do
  -- Get number in range [0,1]
  let normalized := (num - minVal) / (maxVal - minVal)
  -- Scale to put num in range [lRange, rRange]
  return (rRange - lRange) * normalized + lRange

/-- A colour of the drawing library: red, green and blue components. -/
structure Color where
  r : ℕ
  g : ℕ
  b : ℕ
  deriving DecidableEq

/-- The three-argument `color(r, g, b)` of the drawing library. -/
def color (r g b : ℕ) : Color := ⟨r, g, b⟩

/-- The one-argument `color(v)` of the drawing library: the grey of level `v`. -/
def colorGray (v : ℕ) : Color := ⟨v, v, v⟩

/-- One `fill(c); noStroke(); rect(x, y, w, h)` on a graphics buffer, with
the loop variables `cellX`, `cellY` it was issued for. -/
structure RectWrite where
  cellX : ℕ
  cellY : ℕ
  x : JSNum
  y : JSNum
  w : JSNum
  h : JSNum
  fill : Option Color
  deriving DecidableEq

/-- An off-screen graphics buffer: its size and the rectangles drawn on it. -/
structure Graphics where
  width : JSNum
  height : JSNum
  rects : List RectWrite
  deriving DecidableEq

/-- The `createGraphics(w, h)` of the drawing library: an empty buffer. -/
def createGraphics (w h : JSNum) : Graphics := ⟨w, h, []⟩

/-- The fields of a `Mandelbrot` instance (`colors` is the constant table below). -/
structure Mandelbrot where
  width : JSNum
  height : JSNum
  xlBound : JSNum
  xrBound : JSNum
  ylBound : JSNum
  yrBound : JSNum
  buff : Graphics
  deriving DecidableEq

/-- The constructor of `Mandelbrot`. -/
def Mandelbrot.constructor (g : Globals) (_width _height _xlBound _xrBound _ylBound _yrBound : JSNum) :
    Mandelbrot :=
  { width := _width / g.scaleFactor
    height := _height / g.scaleFactor
    xlBound := _xlBound
    xrBound := _xrBound
    ylBound := _ylBound
    yrBound := _yrBound
    buff := createGraphics _width _height }

/-- The table `this.colors`: a lookup of a missing key is `undefined` (`none`). -/
def colors : ℕ → Option Color
  | 0 => some (color 66 30 15)
  | 1 => some (color 25 7 26)
  | 2 => some (color 9 1 47)
  | 3 => some (color 4 4 73)
  | 4 => some (color 0 7 100)
  | 5 => some (color 12 44 138)
  | 6 => some (color 24 82 177)
  | 7 => some (color 57 125 209)
  | 8 => some (color 134 181 229)
  | 9 => some (color 211 236 248)
  | 10 => some (color 241 233 191)
  | 11 => some (color 248 201 95)
  | 12 => some (color 255 170 0)
  | 13 => some (color 204 128 0)
  | 14 => some (color 153 87 0)
  | 15 => some (color 106 52 3)
  | _ => none

/-- The variables of the `while` loop of `_calculatePixel`. -/
structure LoopState where
  x : JSNum
  y : JSNum
  iteration : ℕ
  deriving DecidableEq

/-- The condition of the `while` loop of `_calculatePixel`. -/
def loopGuard (maxIteration : ℕ) (s : LoopState) : Bool :=
  le (pow s.x 2 + pow s.y 2) (pow (fin 2) 2) && decide (s.iteration < maxIteration)

/-- One pass of the body of the `while` loop of `_calculatePixel`. -/
def loopBody (g : Globals) (x0 y0 : JSNum) (s : LoopState) : LoopState :=
  let xtemp := pow s.x g.power - pow s.y g.power + x0
  let y := fin 2 * s.x * s.y + y0
  let x := xtemp
  ⟨x, y, s.iteration + 1⟩

/-- The `while` loop of `_calculatePixel`, run for at most `fuel` passes. -/
def whileLoop (g : Globals) (x0 y0 : JSNum) (maxIteration : ℕ) : ℕ → LoopState → LoopState
  | 0, s => s
  | fuel + 1, s =>
    if loopGuard maxIteration s then
      whileLoop g x0 y0 maxIteration fuel (loopBody g x0 y0 s)
    else s

/-- The state in which the `while` loop of `_calculatePixel` ends for the
plane point `(x0, y0)`.  Each pass adds one to `iteration` and the loop
stops at `maxIteration`, so `maxIteration` passes are enough. -/
def finalLoopState (g : Globals) (x0 y0 : JSNum) : LoopState :=
  let maxIteration := g.iterations
  whileLoop g x0 y0 maxIteration maxIteration ⟨fin 0, fin 0, 0⟩

/-- Method `_calculatePixel(Px, Py)`. -/
def _calculatePixel (g : Globals) (m : Mandelbrot) (Px Py : JSNum) : Outcome ℕ := do
  let x0 ← _scale Px (fin 0) m.width m.xlBound m.xrBound
  let y0 ← _scale Py (fin 0) m.height m.ylBound m.yrBound
  return (finalLoopState g x0 y0).iteration

/-- Method `_setColor(iter)`; the result `none` is `undefined`. -/
def _setColor (g : Globals) (iter : ℕ) : Outcome (Option Color) :=
  return (if iter = g.iterations then some (colorGray 0) else colors (iter % 16))

/-- The loop `for (let i = 0; i < bound; ++i) body`, the body acting on a
state.  The variable takes the naturals below `bound`; for `Infinity` the
loop never ends, for `-Infinity` and `NaN` it is not entered. -/
def forLoop {σ : Type} (bound : JSNum) (body : ℕ → σ → Outcome σ) (init : σ) : Outcome σ :=
  match bound with
  | fin q => (List.range ⌈q⌉.toNat).foldlM (fun s i => body i s) init
  | pinf => .diverged
  | ninf => .returned init
  | nan => .returned init

/-- The body of the inner loop of `buffer()`: one logical pixel. -/
def bufferCell (g : Globals) (m : Mandelbrot) (x y : ℕ) (buff : Graphics) : Outcome Graphics := do
  let iter ← _calculatePixel g m (fin x) (fin y)
  let c ← _setColor g iter
  return { buff with
    rects := buff.rects ++
      [⟨x, y, fin x * g.scaleFactor, fin y * g.scaleFactor, g.scaleFactor, g.scaleFactor, c⟩] }

/-- Method `buffer()`. -/
def buffer (g : Globals) (m : Mandelbrot) : Outcome Mandelbrot := do
  let buff := createGraphics (m.width * g.scaleFactor) (m.height * g.scaleFactor)
  let buff ← forLoop m.width (fun x b => forLoop m.height (fun y b => bufferCell g m x y b) b) buff
  return { m with buff := buff }

/-! ## canvas.js -/

/-- The `Canvas` namespace object. -/
structure CanvasVars where
  width : JSNum
  height : JSNum
  zoom : JSNum
  x : JSNum
  y : JSNum
  deriving DecidableEq

/-- The global state of the page once `setup()` has run. -/
structure World where
  globals : Globals
  Canvas : CanvasVars
  m : Mandelbrot
  DEBUG : Bool
  posOnClickX : JSNum
  posOnClickY : JSNum
  deriving DecidableEq

/-- Function `redrawAtScale()`.  The source keeps `tempXLBound` and `tempYLBound` in
globals nothing else reads; they are local here. -/
def redrawAtScale (st : World) : Outcome World := do
  let s := fin 1 / st.Canvas.zoom
  /- Get the current window width and height when zoomed -/
  let scaledWidth := s * st.Canvas.width
  let scaledHeight := s * st.Canvas.height
  /- Find the center of the screen -/
  let centerX := st.Canvas.width / fin 2 - st.Canvas.x
  let centerY := st.Canvas.height / fin 2 - st.Canvas.y
  let screenLeftBorder := centerX - scaledWidth / fin 2
  let screenRightBorder := centerX + scaledWidth / fin 2
  let screenTopBorder := centerY - scaledHeight / fin 2
  let screenBottomBorder := centerY + scaledHeight / fin 2
  /- Find the adjusted x bounds for Mandelbrot set from screen size -/
  let m := st.m
  let tempXLBound := m.xlBound
  let xlBound ← _scale screenLeftBorder (fin 0) st.Canvas.width m.xlBound m.xrBound
  let m := { m with xlBound := xlBound }
  let xrBound ← _scale screenRightBorder (fin 0) st.Canvas.width tempXLBound m.xrBound
  let m := { m with xrBound := xrBound }
  /- Find the adjusted y bounds for Mandelbrot set from screen size -/
  let tempYLBound := m.ylBound
  let ylBound ← _scale screenTopBorder (fin 0) st.Canvas.height m.ylBound m.yrBound
  let m := { m with ylBound := ylBound }
  let yrBound ← _scale screenBottomBorder (fin 0) st.Canvas.height tempYLBound m.yrBound
  let m := { m with yrBound := yrBound }
  /- Reset canvas variables -/
  let canvas := { st.Canvas with x := fin 0, y := fin 0, zoom := fin 1 }
  /- Recalculate Mandelbrot set at current position -/
  let m ← buffer st.globals m
  return { st with Canvas := canvas, m := m }

/-- The local `screenLeftBorder` of `redrawAtScale()`. -/
def screenLeftBorder (C : CanvasVars) : JSNum :=
  let s := fin 1 / C.zoom
  let scaledWidth := s * C.width
  let centerX := C.width / fin 2 - C.x
  centerX - scaledWidth / fin 2

/-- The local `screenRightBorder` of `redrawAtScale()`. -/
def screenRightBorder (C : CanvasVars) : JSNum :=
  let s := fin 1 / C.zoom
  let scaledWidth := s * C.width
  let centerX := C.width / fin 2 - C.x
  centerX + scaledWidth / fin 2

/-- The local `screenTopBorder` of `redrawAtScale()`. -/
def screenTopBorder (C : CanvasVars) : JSNum :=
  let s := fin 1 / C.zoom
  let scaledHeight := s * C.height
  let centerY := C.height / fin 2 - C.y
  centerY - scaledHeight / fin 2

/-- The local `screenBottomBorder` of `redrawAtScale()`. -/
def screenBottomBorder (C : CanvasVars) : JSNum :=
  let s := fin 1 / C.zoom
  let scaledHeight := s * C.height
  let centerY := C.height / fin 2 - C.y
  centerY + scaledHeight / fin 2

/-- The current transform of the drawing library, without rotation: a point
`(px, py)` of a drawing lands on the screen at `(a * px + tx, a * py + ty)`. -/
structure Transform where
  a : JSNum
  tx : JSNum
  ty : JSNum
  deriving DecidableEq

/-- The transform in force at the start of a frame. -/
def Transform.identity : Transform := ⟨fin 1, fin 0, fin 0⟩

/-- The `translate(x, y)` of the drawing library: what is drawn afterwards is
moved by `(x, y)` before the transform in force is applied. -/
def translate (M : Transform) (x y : JSNum) : Transform :=
  ⟨M.a, M.a * x + M.tx, M.a * y + M.ty⟩

/-- The `scale(s)` of the drawing library: what is drawn afterwards is
scaled by `s` before the transform in force is applied. -/
def scale (M : Transform) (s : JSNum) : Transform :=
  ⟨M.a * s, M.tx, M.ty⟩

/-- The screen position of the point `(px, py)` of a drawing. -/
def Transform.apply (M : Transform) (px py : JSNum) : JSNum × JSNum :=
  (M.a * px + M.tx, M.a * py + M.ty)

/-- Function `handleZoom()`, acting on the transform in force. -/
def handleZoom (C : CanvasVars) (M : Transform) : Transform :=
  let centerX := C.width / fin 2
  let centerY := C.height / fin 2
  let M := translate M centerX centerY
  let M := scale M C.zoom
  translate M (-centerX) (-centerY)

/-- The transform under which `draw()` paints the cached image
(`image(this.buff, 0, 0)`): `push()`, `handleZoom()`,
`translate(Canvas.x, Canvas.y)`, `m.draw()`, `pop()`. -/
def drawTransform (C : CanvasVars) : Transform :=
  let M := handleZoom C Transform.identity
  translate M C.x C.y

/-- Function `setup()` for a window of the given size: `posOnClickX` and
`posOnClickY` are still `undefined`, which arithmetic reads as `NaN`. -/
def setup (g : Globals) (width height : JSNum) : Outcome World := do
  let m := Mandelbrot.constructor g width height (fin (-5/2)) (fin 1) (fin (-1)) (fin 1)
  let m ← buffer g m
  return ⟨g, ⟨width, height, fin 1, fin 0, fin 0⟩, m, false, nan, nan⟩

/-- Function `mouseWheel(e)`, with `deltaY` for `e.deltaY`; the value it
returns only blocks page scrolling. -/
def mouseWheel (st : World) (deltaY : JSNum) : Outcome World :=
  if lt (fin 0) deltaY then
    /- scrolling in -/
    return { st with Canvas := { st.Canvas with zoom := st.Canvas.zoom * fin (102 / 100) } }
  else
    /- scrolling out -/
    return { st with Canvas := { st.Canvas with zoom := st.Canvas.zoom * fin (98 / 100) } }

/-- The `mousedown` listener. -/
def mousedown (st : World) (clientX clientY : JSNum) : Outcome World :=
  return { st with posOnClickX := clientX, posOnClickY := clientY }

/-- Function `mouseDragged(e)`. -/
def mouseDragged (st : World) (clientX clientY : JSNum) : Outcome World :=
  /- Get the change from the last position -/
  let deltaX := clientX - st.posOnClickX
  let deltaY := clientY - st.posOnClickY
  /- Update the position on the canvas for smooth panning -/
  let canvas := { st.Canvas with
    x := st.Canvas.x + deltaX / st.Canvas.zoom
    y := st.Canvas.y + deltaY / st.Canvas.zoom }
  /- Save last position for next deltaX/Y calculation -/
  return { st with Canvas := canvas, posOnClickX := clientX, posOnClickY := clientY }

/-- The `keydown` listener, with `key` for `e.key`.  The closing `draw()`
paints the screen and assigns no variable. -/
def keydown (st : World) (key : String) : Outcome World :=
  if key = "r" then redrawAtScale st
  else if key = "w" then return { st with Canvas := { st.Canvas with y := st.Canvas.y + fin 5 } }
  else if key = "a" then return { st with Canvas := { st.Canvas with x := st.Canvas.x + fin 5 } }
  else if key = "s" then return { st with Canvas := { st.Canvas with y := st.Canvas.y - fin 5 } }
  else if key = "d" then return { st with Canvas := { st.Canvas with x := st.Canvas.x - fin 5 } }
  else if key = "]" then
    return { st with Canvas := { st.Canvas with zoom := st.Canvas.zoom * fin (102 / 100) } }
  else if key = "[" then
    return { st with Canvas := { st.Canvas with zoom := st.Canvas.zoom * fin (98 / 100) } }
  else if key = "v" then return { st with DEBUG := !st.DEBUG }
  else return st

/-- An input event of the page. -/
inductive Event where
  | wheel (deltaY : JSNum)
  | down (clientX clientY : JSNum)
  | dragged (clientX clientY : JSNum)
  | key (key : String)
  deriving DecidableEq

/-- The handler the page runs for an event. -/
def handle (st : World) : Event → Outcome World
  | .wheel deltaY => mouseWheel st deltaY
  | .down clientX clientY => mousedown st clientX clientY
  | .dragged clientX clientY => mouseDragged st clientX clientY
  | .key key => keydown st key

/-- The handlers of a finite sequence of events, run one after the other. -/
def handleAll (st : World) (events : List Event) : Outcome World :=
  events.foldlM handle st

/-! ## Reference definitions, from the words of the specification -/

/-- Reference: the product of two complex numbers with rational parts. -/
def cmul (z w : ℚ × ℚ) : ℚ × ℚ := (z.1 * w.1 - z.2 * w.2, z.1 * w.2 + z.2 * w.1)

/-- Reference: the sum of two complex numbers with rational parts. -/
def cadd (z w : ℚ × ℚ) : ℚ × ℚ := (z.1 + w.1, z.2 + w.2)

/-- Reference: the complex power `z ^ n`. -/
def cpow (z : ℚ × ℚ) : ℕ → ℚ × ℚ
  | 0 => (1, 0)
  | n + 1 => cmul z (cpow z n)

/-- Reference: the squared modulus `|z|²`. -/
def normSq (z : ℚ × ℚ) : ℚ := z.1 ^ 2 + z.2 ^ 2

/-- Reference: the orbit `z_0 = 0`, `z_{n+1} = z_n² + c`. -/
def refOrbit (c : ℚ × ℚ) : ℕ → ℚ × ℚ
  | 0 => (0, 0)
  | n + 1 => cadd (cpow (refOrbit c n) 2) c

/-- Reference: the escape time `min(maxIterations, least n with |z_n|² > 4)`,
which is `maxIterations` when no such `n < maxIterations` exists. -/
def refEscapeTime (c : ℚ × ℚ) (maxIterations : ℕ) : ℕ :=
  if h : ∃ n, n < maxIterations ∧ normSq (refOrbit c n) > 4 then Nat.find h else maxIterations

/-! ## Double precision

The definitions above compute in exact arithmetic.  The code computes in
doubles: the result of each arithmetic operation is the exact result
rounded to the nearest double.  The definitions below are the same
translations of the source with the result of each operation passed through
a rounding `rnd`: `rnd = round64` is the arithmetic of the code, `rnd = id`
is exact arithmetic.  The sign of zero is not modelled, and
`Math.pow(x, n)` is taken as `n` rounded products. -/

/-- The integer nearest to `n / d`, the even one of the two when `n / d`
lies half-way between two integers. -/
def roundHalfEven (n d : ℕ) : ℕ :=
  let q := n / d
  let rem := n % d
  if 2 * rem < d then q
  else if d < 2 * rem then q + 1
  else if q % 2 = 0 then q else q + 1

/-- The number of binary digits of `n`, read in at most `fuel` halvings. -/
def binaryDigits : ℕ → ℕ → ℕ
  | 0, _ => 0
  | fuel + 1, n => if n = 0 then 0 else binaryDigits fuel (n / 2) + 1

/-- The exponent `e` with `2 ^ e ≤ n / d < 2 ^ (e + 1)`, for `n, d > 0`: the
difference of the digit counts, or one less. -/
def binaryExponent (n d : ℕ) : ℤ :=
  let e0 : ℤ := (binaryDigits n n : ℤ) - (binaryDigits d d : ℤ)
  if 0 ≤ e0 then
    if d * 2 ^ e0.toNat ≤ n then e0 else e0 - 1
  else
    if d ≤ n * 2 ^ (-e0).toNat then e0 else e0 - 1

/-- The double nearest to the rational `q`, ties to the even significand:
53 significant bits, spacing `2 ^ (-1074)` below `2 ^ (-1022)`, and
`±Infinity` when the rounded magnitude reaches `2 ^ 1024`. -/
def roundDouble (q : ℚ) : JSNum :=
  if q = 0 then fin 0
  else
    let n := q.num.natAbs
    let d := q.den
    let s := max (binaryExponent n d) (-1022) - 52
    let v : ℚ :=
      if 0 ≤ s then ((roundHalfEven n (d * 2 ^ s.toNat) * 2 ^ s.toNat : ℕ) : ℚ)
      else (roundHalfEven (n * 2 ^ (-s).toNat) d : ℚ) / ((2 ^ (-s).toNat : ℕ) : ℚ)
    if (2 : ℚ) ^ 1024 ≤ v then (if q < 0 then ninf else pinf)
    else fin (if q < 0 then -v else v)

/-- The rounding of the result of an operation on doubles. -/
def round64 : JSNum → JSNum
  | fin q => roundDouble q
  | pinf => pinf
  | ninf => ninf
  | nan => nan

/-- The `Math.pow(x, n)` of the source for a natural exponent, each product rounded. -/
def powR (rnd : JSNum → JSNum) (x : JSNum) : ℕ → JSNum
  | 0 => fin 1
  | n + 1 => rnd (x * powR rnd x n)

/-- Method `_scale(num, minVal, maxVal, lRange, rRange)`, each operation rounded. -/
def _scaleR (rnd : JSNum → JSNum) (num minVal maxVal lRange rRange : JSNum) : Outcome JSNum := do
  -- Get number in range [0,1]
  let normalized := rnd (rnd (num - minVal) / rnd (maxVal - minVal))
  -- Scale to put num in range [lRange, rRange]
  return rnd (rnd (rnd (rRange - lRange) * normalized) + lRange)

/-- The condition of the `while` loop of `_calculatePixel`, each operation rounded. -/
def loopGuardR (rnd : JSNum → JSNum) (maxIteration : ℕ) (s : LoopState) : Bool :=
  le (rnd (powR rnd s.x 2 + powR rnd s.y 2)) (powR rnd (fin 2) 2)
    && decide (s.iteration < maxIteration)

/-- One pass of the body of the `while` loop of `_calculatePixel`, each operation rounded. -/
def loopBodyR (rnd : JSNum → JSNum) (g : Globals) (x0 y0 : JSNum) (s : LoopState) : LoopState :=
  let xtemp := rnd (rnd (powR rnd s.x g.power - powR rnd s.y g.power) + x0)
  let y := rnd (rnd (rnd (fin 2 * s.x) * s.y) + y0)
  let x := xtemp
  ⟨x, y, s.iteration + 1⟩

/-- The `while` loop of `_calculatePixel`, each operation rounded, run for at
most `fuel` passes. -/
def whileLoopR (rnd : JSNum → JSNum) (g : Globals) (x0 y0 : JSNum) (maxIteration : ℕ) :
    ℕ → LoopState → LoopState
  | 0, s => s
  | fuel + 1, s =>
    if loopGuardR rnd maxIteration s then
      whileLoopR rnd g x0 y0 maxIteration fuel (loopBodyR rnd g x0 y0 s)
    else s

/-- The state in which the rounded loop ends; `maxIteration` passes are enough. -/
def finalLoopStateR (rnd : JSNum → JSNum) (g : Globals) (x0 y0 : JSNum) : LoopState :=
  let maxIteration := g.iterations
  whileLoopR rnd g x0 y0 maxIteration maxIteration ⟨fin 0, fin 0, 0⟩

/-- Method `_calculatePixel(Px, Py)`, each operation rounded. -/
def _calculatePixelR (rnd : JSNum → JSNum) (g : Globals) (m : Mandelbrot) (Px Py : JSNum) :
    Outcome ℕ := do
  let x0 ← _scaleR rnd Px (fin 0) m.width m.xlBound m.xrBound
  let y0 ← _scaleR rnd Py (fin 0) m.height m.ylBound m.yrBound
  return (finalLoopStateR rnd g x0 y0).iteration

/-- The body of the inner loop of `buffer()`, each operation rounded. -/
def bufferCellR (rnd : JSNum → JSNum) (g : Globals) (m : Mandelbrot) (x y : ℕ)
    (buff : Graphics) : Outcome Graphics := do
  let iter ← _calculatePixelR rnd g m (fin x) (fin y)
  let c ← _setColor g iter
  return { buff with
    rects := buff.rects ++
      [⟨x, y, rnd (fin x * g.scaleFactor), rnd (fin y * g.scaleFactor),
        g.scaleFactor, g.scaleFactor, c⟩] }

/-- Method `buffer()`, each operation rounded. -/
def bufferR (rnd : JSNum → JSNum) (g : Globals) (m : Mandelbrot) : Outcome Mandelbrot := do
  let buff := createGraphics (rnd (m.width * g.scaleFactor)) (rnd (m.height * g.scaleFactor))
  let buff ← forLoop m.width
    (fun x b => forLoop m.height (fun y b => bufferCellR rnd g m x y b) b) buff
  return { m with buff := buff }

/-- The local `screenLeftBorder` of `redrawAtScale()`, each operation rounded. -/
def screenLeftBorderR (rnd : JSNum → JSNum) (C : CanvasVars) : JSNum :=
  let s := rnd (fin 1 / C.zoom)
  let scaledWidth := rnd (s * C.width)
  let centerX := rnd (rnd (C.width / fin 2) - C.x)
  rnd (centerX - rnd (scaledWidth / fin 2))

/-- The local `screenRightBorder` of `redrawAtScale()`, each operation rounded. -/
def screenRightBorderR (rnd : JSNum → JSNum) (C : CanvasVars) : JSNum :=
  let s := rnd (fin 1 / C.zoom)
  let scaledWidth := rnd (s * C.width)
  let centerX := rnd (rnd (C.width / fin 2) - C.x)
  rnd (centerX + rnd (scaledWidth / fin 2))

/-- The local `screenTopBorder` of `redrawAtScale()`, each operation rounded. -/
def screenTopBorderR (rnd : JSNum → JSNum) (C : CanvasVars) : JSNum :=
  let s := rnd (fin 1 / C.zoom)
  let scaledHeight := rnd (s * C.height)
  let centerY := rnd (rnd (C.height / fin 2) - C.y)
  rnd (centerY - rnd (scaledHeight / fin 2))

/-- The local `screenBottomBorder` of `redrawAtScale()`, each operation rounded. -/
def screenBottomBorderR (rnd : JSNum → JSNum) (C : CanvasVars) : JSNum :=
  let s := rnd (fin 1 / C.zoom)
  let scaledHeight := rnd (s * C.height)
  let centerY := rnd (rnd (C.height / fin 2) - C.y)
  rnd (centerY + rnd (scaledHeight / fin 2))

/-- Function `redrawAtScale()`, each operation rounded. -/
def redrawAtScaleR (rnd : JSNum → JSNum) (st : World) : Outcome World := do
  let s := rnd (fin 1 / st.Canvas.zoom)
  /- Get the current window width and height when zoomed -/
  let scaledWidth := rnd (s * st.Canvas.width)
  let scaledHeight := rnd (s * st.Canvas.height)
  /- Find the center of the screen -/
  let centerX := rnd (rnd (st.Canvas.width / fin 2) - st.Canvas.x)
  let centerY := rnd (rnd (st.Canvas.height / fin 2) - st.Canvas.y)
  let screenLeftBorder := rnd (centerX - rnd (scaledWidth / fin 2))
  let screenRightBorder := rnd (centerX + rnd (scaledWidth / fin 2))
  let screenTopBorder := rnd (centerY - rnd (scaledHeight / fin 2))
  let screenBottomBorder := rnd (centerY + rnd (scaledHeight / fin 2))
  /- Find the adjusted x bounds for Mandelbrot set from screen size -/
  let m := st.m
  let tempXLBound := m.xlBound
  let xlBound ← _scaleR rnd screenLeftBorder (fin 0) st.Canvas.width m.xlBound m.xrBound
  let m := { m with xlBound := xlBound }
  let xrBound ← _scaleR rnd screenRightBorder (fin 0) st.Canvas.width tempXLBound m.xrBound
  let m := { m with xrBound := xrBound }
  /- Find the adjusted y bounds for Mandelbrot set from screen size -/
  let tempYLBound := m.ylBound
  let ylBound ← _scaleR rnd screenTopBorder (fin 0) st.Canvas.height m.ylBound m.yrBound
  let m := { m with ylBound := ylBound }
  let yrBound ← _scaleR rnd screenBottomBorder (fin 0) st.Canvas.height tempYLBound m.yrBound
  let m := { m with yrBound := yrBound }
  /- Reset canvas variables -/
  let canvas := { st.Canvas with x := fin 0, y := fin 0, zoom := fin 1 }
  /- Recalculate Mandelbrot set at current position -/
  let m ← bufferR rnd st.globals m
  return { st with Canvas := canvas, m := m }

/-! ## Arithmetic on finite numbers -/

namespace JSNum

@[simp] theorem fin_add (a b : ℚ) : fin a + fin b = fin (a + b) := rfl

@[simp] theorem fin_sub (a b : ℚ) : fin a - fin b = fin (a - b) := by
  show add (fin a) (neg (fin b)) = fin (a - b)
  simp [add, neg, sub_eq_add_neg]

@[simp] theorem fin_mul (a b : ℚ) : fin a * fin b = fin (a * b) := rfl

theorem fin_div (a b : ℚ) (h : b ≠ 0) : fin a / fin b = fin (a / b) := by
  show div (fin a) (fin b) = fin (a / b)
  simp [div, h]

theorem fin_div_zero (a : ℚ) : fin a / fin 0 = signed a := by
  show div (fin a) (fin 0) = signed a
  simp [div]

@[simp] theorem pow_fin (a : ℚ) (n : ℕ) : pow (fin a) n = fin (a ^ n) := by
  induction n with
  | zero => simp [pow]
  | succ n ih => simp [pow, ih, pow_succ, mul_comm]

@[simp] theorem le_fin (a b : ℚ) : le (fin a) (fin b) = decide (a ≤ b) := rfl

@[simp] theorem lt_fin (a b : ℚ) : lt (fin a) (fin b) = decide (a < b) := rfl

theorem fin_mul_pinf (a : ℚ) : fin a * pinf = signed a := rfl

theorem fin_mul_ninf (a : ℚ) : fin a * ninf = signed (-a) := rfl

theorem pinf_mul_fin (a : ℚ) : pinf * fin a = signed a := rfl

theorem ninf_mul_fin (a : ℚ) : ninf * fin a = signed (-a) := rfl

theorem pinf_add_fin (a : ℚ) : pinf + fin a = pinf := rfl

theorem ninf_add_fin (a : ℚ) : ninf + fin a = ninf := rfl

theorem fin_add_pinf (a : ℚ) : fin a + pinf = pinf := rfl

theorem fin_add_ninf (a : ℚ) : fin a + ninf = ninf := rfl

theorem fin_sub_pinf (a : ℚ) : fin a - pinf = ninf := rfl

theorem fin_sub_ninf (a : ℚ) : fin a - ninf = pinf := rfl

theorem pinf_sub_fin (a : ℚ) : pinf - fin a = pinf := rfl

theorem ninf_sub_fin (a : ℚ) : ninf - fin a = ninf := rfl

theorem pinf_div_fin {b : ℚ} (h : 0 ≤ b) : pinf / fin b = pinf := by
  show div pinf (fin b) = pinf
  simp [div, not_lt.mpr h]

theorem ninf_div_fin {b : ℚ} (h : 0 ≤ b) : ninf / fin b = ninf := by
  show div ninf (fin b) = ninf
  simp [div, not_lt.mpr h]

theorem signed_pos {s : ℚ} (h : 0 < s) : signed s = pinf := by simp [signed, h]

theorem signed_neg {s : ℚ} (h : s < 0) : signed s = ninf := by
  simp [signed, h, not_lt.mpr h.le]

theorem signed_zero : signed 0 = nan := by simp [signed]

theorem signed_not_finite (s : ℚ) : (signed s).isFinite = false := by
  unfold signed
  split_ifs <;> rfl

theorem mul_not_finite (x y : JSNum) (h : y.isFinite = false) : (x * y).isFinite = false := by
  show (mul x y).isFinite = false
  cases x <;> cases y <;>
    first
      | rfl
      | exact signed_not_finite _
      | simp [isFinite] at h

theorem add_not_finite (x y : JSNum) (h : x.isFinite = false) : (x + y).isFinite = false := by
  show (add x y).isFinite = false
  cases x <;> cases y <;> simp_all [add, isFinite]

end JSNum

/-! ## Completion lemmas -/

@[simp] theorem Outcome.pure_eq {α : Type} (a : α) : (pure a : Outcome α) = .returned a := rfl

@[simp] theorem Outcome.returned_bind {α β : Type} (a : α) (f : α → Outcome β) :
    (Outcome.returned a >>= f) = f a := rfl

@[simp] theorem Outcome.threw_bind {α β : Type} (e : ErrorKind) (f : α → Outcome β) :
    ((Outcome.threw e : Outcome α) >>= f) = .threw e := rfl

@[simp] theorem Outcome.diverged_bind {α β : Type} (f : α → Outcome β) :
    ((Outcome.diverged : Outcome α) >>= f) = .diverged := rfl

theorem Outcome.bind_not_threw {α β : Type} (x : Outcome α) (f : α → Outcome β)
    (hx : ∀ e, x ≠ .threw e) (hf : ∀ a e, f a ≠ .threw e) (e : ErrorKind) :
    (x >>= f) ≠ .threw e := by
  cases x with
  | returned a => exact hf a e
  | threw e1 => exact absurd rfl (hx e1)
  | diverged => exact fun h => Outcome.noConfusion h

/-! ## The rescaling `_scale` -/

/-- The call `_scale` returns the value of its arithmetic expression. -/
theorem scale_eq (num minVal maxVal lRange rRange : JSNum) :
    _scale num minVal maxVal lRange rRange
      = .returned ((rRange - lRange) * ((num - minVal) / (maxVal - minVal)) + lRange) := rfl

/-- On finite arguments with a non-degenerate source range `_scale` is the
affine map of the rationals. -/
theorem scale_fin (v a b c d : ℚ) (h : a ≠ b) :
    _scale (fin v) (fin a) (fin b) (fin c) (fin d)
      = .returned (fin ((d - c) * ((v - a) / (b - a)) + c)) := by
  have hba : b - a ≠ 0 := sub_ne_zero.mpr (Ne.symm h)
  simp [scale_eq, fin_div _ _ hba]

/-- C1: in exact arithmetic, rescaling a value from `[A, B]` to `[C, D]` and
the result back from `[C, D]` to `[A, B]` returns the value, when `A ≠ B`
and `C ≠ D`. -/
theorem scale_round_trip (value A B C D : ℚ) (hAB : A ≠ B) (hCD : C ≠ D) :
    (_scale (fin value) (fin A) (fin B) (fin C) (fin D) >>= fun r =>
      _scale r (fin C) (fin D) (fin A) (fin B)) = .returned (fin value) := by
  have hBA : B - A ≠ 0 := sub_ne_zero.mpr (Ne.symm hAB)
  have hDC : D - C ≠ 0 := sub_ne_zero.mpr (Ne.symm hCD)
  rw [scale_fin _ _ _ _ _ hAB, Outcome.returned_bind, scale_fin _ _ _ _ _ hCD]
  congr 2
  field_simp
  ring

/-- C1 at `value = 200`, `[A, B] = [0, 800]`, `[C, D] = [-5/2, 1]`. -/
theorem scale_round_trip_witness :
    (_scale (fin 200) (fin 0) (fin 800) (fin (-5/2)) (fin 1) >>= fun r =>
      _scale r (fin (-5/2)) (fin 1) (fin 0) (fin 800)) = .returned (fin 200) :=
  scale_round_trip 200 0 800 (-5/2) 1 (by norm_num) (by norm_num)

/-- C4, as stated, fails: `_scale(5, 0, 0, -5/2, 1)` has an empty source
range and returns `Infinity`; it does not throw `DegenerateRangeError`. -/
theorem scale_degenerate_returns :
    _scale (fin 5) (fin 0) (fin 0) (fin (-5/2)) (fin 1) = .returned pinf ∧
    _scale (fin 5) (fin 0) (fin 0) (fin (-5/2)) (fin 1) ≠ .threw .DegenerateRangeError := by
  have h : _scale (fin 5) (fin 0) (fin 0) (fin (-5/2)) (fin 1) = .returned pinf := by
    norm_num [scale_eq, fin_div_zero, signed, fin_mul_pinf, pinf_add_fin]
  exact ⟨h, by rw [h]; exact fun h => Outcome.noConfusion h⟩

/-- C4, amended: with `srcMax = srcMin` the call `_scale` does not fail; it
divides by zero and returns a number that is not finite (`Infinity`,
`-Infinity` or `NaN`). -/
theorem scale_degenerate_not_finite (value srcMin dstMin dstMax : ℚ) :
    ∃ r, _scale (fin value) (fin srcMin) (fin srcMin) (fin dstMin) (fin dstMax) = .returned r ∧
      r.isFinite = false := by
  refine ⟨_, scale_eq _ _ _ _ _, ?_⟩
  apply add_not_finite
  apply mul_not_finite
  simp [fin_div_zero, signed_not_finite]

/-! ## The render loop ends and does not throw -/

/-- The loop variable of `for (let i = 0; i < bound; ++i)` takes exactly the
naturals below a finite `bound`. -/
theorem mem_range_ceil (q : ℚ) (i : ℕ) : i ∈ List.range ⌈q⌉.toNat ↔ (i : ℚ) < q := by
  rw [List.mem_range, Int.lt_toNat, Int.lt_ceil]
  norm_cast

/-- The constructor gives finite buffer dimensions when the canvas size is
finite and `scaleFactor` is finite and not zero. -/
theorem constructor_dimensions (g : Globals) (W H d : ℚ) (xl xr yl yr : JSNum)
    (hg : g.scaleFactor = fin d) (hd : d ≠ 0) :
    (Mandelbrot.constructor g (fin W) (fin H) xl xr yl yr).width = fin (W / d) ∧
    (Mandelbrot.constructor g (fin W) (fin H) xl xr yl yr).height = fin (H / d) := by
  simp [Mandelbrot.constructor, hg, fin_div, hd]

theorem foldlM_returns {σ : Type} (body : ℕ → σ → Outcome σ)
    (hb : ∀ i s, ∃ s', body i s = .returned s') (l : List ℕ) (init : σ) :
    ∃ s', l.foldlM (fun s i => body i s) init = .returned s' := by
  induction l generalizing init with
  | nil => exact ⟨init, rfl⟩
  | cons i l ih =>
    obtain ⟨s1, h1⟩ := hb i init
    obtain ⟨s2, h2⟩ := ih s1
    exact ⟨s2, by simp [List.foldlM_cons, h1, h2]⟩

theorem forLoop_returns {σ : Type} (bound : JSNum) (body : ℕ → σ → Outcome σ)
    (hbound : bound ≠ pinf) (hb : ∀ i s, ∃ s', body i s = .returned s') (init : σ) :
    ∃ s', forLoop bound body init = .returned s' := by
  cases bound with
  | fin q => exact foldlM_returns body hb _ init
  | pinf => exact absurd rfl hbound
  | ninf => exact ⟨init, rfl⟩
  | nan => exact ⟨init, rfl⟩

theorem bufferCell_returns (g : Globals) (m : Mandelbrot) (x y : ℕ) (buff : Graphics) :
    ∃ b, bufferCell g m x y buff = .returned b :=
  ⟨_, rfl⟩

/-- The call `buffer()` returns when neither buffer dimension is `Infinity`,
and changes only `buff`. -/
theorem buffer_returns (g : Globals) (m : Mandelbrot)
    (hw : m.width ≠ pinf) (hh : m.height ≠ pinf) :
    ∃ b, buffer g m = .returned { m with buff := b } := by
  obtain ⟨b, hb⟩ := forLoop_returns m.width
    (fun x b => forLoop m.height (fun y b => bufferCell g m x y b) b) hw
    (fun x b => forLoop_returns m.height _ hh (fun y b => bufferCell_returns g m x y b) b)
    (createGraphics (m.width * g.scaleFactor) (m.height * g.scaleFactor))
  exact ⟨b, by simp [buffer, hb]⟩

theorem foldlM_not_threw {σ : Type} (body : ℕ → σ → Outcome σ)
    (hb : ∀ i s e, body i s ≠ .threw e) (l : List ℕ) (init : σ) (e : ErrorKind) :
    l.foldlM (fun s i => body i s) init ≠ .threw e := by
  induction l generalizing init with
  | nil => exact fun h => Outcome.noConfusion h
  | cons i l ih =>
    rw [List.foldlM_cons]
    cases h1 : body i init with
    | returned s1 => exact ih s1
    | threw e1 => exact absurd h1 (hb i init e1)
    | diverged => exact fun h => Outcome.noConfusion h

theorem forLoop_not_threw {σ : Type} (bound : JSNum) (body : ℕ → σ → Outcome σ)
    (hb : ∀ i s e, body i s ≠ .threw e) (init : σ) (e : ErrorKind) :
    forLoop bound body init ≠ .threw e := by
  cases bound with
  | fin q => exact foldlM_not_threw body hb _ init e
  | pinf => exact fun h => Outcome.noConfusion h
  | ninf => exact fun h => Outcome.noConfusion h
  | nan => exact fun h => Outcome.noConfusion h

theorem buffer_not_threw (g : Globals) (m : Mandelbrot) (e : ErrorKind) :
    buffer g m ≠ .threw e :=
  Outcome.bind_not_threw _ _
    (forLoop_not_threw m.width
      (fun x b => forLoop m.height (fun y b => bufferCell g m x y b) b)
      (fun _ b e => forLoop_not_threw m.height _
        (fun _ _ _ => fun h => Outcome.noConfusion h) b e)
      (createGraphics (m.width * g.scaleFactor) (m.height * g.scaleFactor)))
    (fun _ _ => fun h => Outcome.noConfusion h) e

/-! ## The commit `redrawAtScale` -/

/-- The commit, step by step: given the four screen borders and the four
rescaled bounds, `redrawAtScale` stores the bounds, resets the pending
transform and renders. -/
theorem redrawAtScale_eq (st : World) (L R T B xl1 xr1 yl1 yr1 : JSNum)
    (hL : st.Canvas.width / fin 2 - st.Canvas.x
            - fin 1 / st.Canvas.zoom * st.Canvas.width / fin 2 = L)
    (hR : st.Canvas.width / fin 2 - st.Canvas.x
            + fin 1 / st.Canvas.zoom * st.Canvas.width / fin 2 = R)
    (hT : st.Canvas.height / fin 2 - st.Canvas.y
            - fin 1 / st.Canvas.zoom * st.Canvas.height / fin 2 = T)
    (hB : st.Canvas.height / fin 2 - st.Canvas.y
            + fin 1 / st.Canvas.zoom * st.Canvas.height / fin 2 = B)
    (hxl : _scale L (fin 0) st.Canvas.width st.m.xlBound st.m.xrBound = .returned xl1)
    (hxr : _scale R (fin 0) st.Canvas.width st.m.xlBound st.m.xrBound = .returned xr1)
    (hyl : _scale T (fin 0) st.Canvas.height st.m.ylBound st.m.yrBound = .returned yl1)
    (hyr : _scale B (fin 0) st.Canvas.height st.m.ylBound st.m.yrBound = .returned yr1) :
    redrawAtScale st =
      (buffer st.globals
        { st.m with xlBound := xl1, xrBound := xr1, ylBound := yl1, yrBound := yr1 } >>= fun m =>
        .returned { st with
          Canvas := { st.Canvas with x := fin 0, y := fin 0, zoom := fin 1 }
          m := m }) := by
  subst hL hR hT hB
  rw [scale_eq] at hxl hxr hyl hyr
  cases hxl
  cases hxr
  cases hyl
  cases hyr
  rfl

/-- The commit returns when neither buffer dimension is `Infinity`. -/
theorem redrawAtScale_returns (st : World) (L R T B xl1 xr1 yl1 yr1 : JSNum)
    (hL : st.Canvas.width / fin 2 - st.Canvas.x
            - fin 1 / st.Canvas.zoom * st.Canvas.width / fin 2 = L)
    (hR : st.Canvas.width / fin 2 - st.Canvas.x
            + fin 1 / st.Canvas.zoom * st.Canvas.width / fin 2 = R)
    (hT : st.Canvas.height / fin 2 - st.Canvas.y
            - fin 1 / st.Canvas.zoom * st.Canvas.height / fin 2 = T)
    (hB : st.Canvas.height / fin 2 - st.Canvas.y
            + fin 1 / st.Canvas.zoom * st.Canvas.height / fin 2 = B)
    (hxl : _scale L (fin 0) st.Canvas.width st.m.xlBound st.m.xrBound = .returned xl1)
    (hxr : _scale R (fin 0) st.Canvas.width st.m.xlBound st.m.xrBound = .returned xr1)
    (hyl : _scale T (fin 0) st.Canvas.height st.m.ylBound st.m.yrBound = .returned yl1)
    (hyr : _scale B (fin 0) st.Canvas.height st.m.ylBound st.m.yrBound = .returned yr1)
    (hw : st.m.width ≠ pinf) (hh : st.m.height ≠ pinf) :
    ∃ b, redrawAtScale st = .returned
      { st with
        Canvas := { st.Canvas with x := fin 0, y := fin 0, zoom := fin 1 }
        m := { st.m with
          xlBound := xl1, xrBound := xr1, ylBound := yl1, yrBound := yr1, buff := b } } := by
  obtain ⟨b, hb⟩ := buffer_returns st.globals
    { st.m with xlBound := xl1, xrBound := xr1, ylBound := yl1, yrBound := yr1 } hw hh
  exact ⟨b, by rw [redrawAtScale_eq st L R T B xl1 xr1 yl1 yr1 hL hR hT hB hxl hxr hyl hyr, hb]; rfl⟩

/-- The commit never throws. -/
theorem redrawAtScale_not_threw (st : World) (e : ErrorKind) : redrawAtScale st ≠ .threw e := by
  rw [redrawAtScale_eq st _ _ _ _ _ _ _ _ rfl rfl rfl rfl (scale_eq _ _ _ _ _) (scale_eq _ _ _ _ _)
    (scale_eq _ _ _ _ _) (scale_eq _ _ _ _ _)]
  exact Outcome.bind_not_threw _ _ (buffer_not_threw _ _) (fun _ _ => fun h => Outcome.noConfusion h) e

/-- The commit on finite data, in exact arithmetic: with a non-zero zoom and
a non-empty canvas the new bounds are the affine images of the four screen
borders under the old pixel-to-plane map. -/
theorem redrawAtScale_fin (g : Globals) (W H zoom panX panY xl xr yl yr : ℚ)
    (mw mh : JSNum) (buff : Graphics) (dbg : Bool) (cx cy : JSNum)
    (hz : zoom ≠ 0) (hW : W ≠ 0) (hH : H ≠ 0) (hw : mw ≠ pinf) (hh : mh ≠ pinf) :
    ∃ b, redrawAtScale ⟨g, ⟨fin W, fin H, fin zoom, fin panX, fin panY⟩,
        ⟨mw, mh, fin xl, fin xr, fin yl, fin yr, buff⟩, dbg, cx, cy⟩
      = .returned ⟨g, ⟨fin W, fin H, fin 1, fin 0, fin 0⟩,
        ⟨mw, mh,
          fin (xl + (xr - xl) * ((W / 2 - panX - W / (2 * zoom)) / W)),
          fin (xl + (xr - xl) * ((W / 2 - panX + W / (2 * zoom)) / W)),
          fin (yl + (yr - yl) * ((H / 2 - panY - H / (2 * zoom)) / H)),
          fin (yl + (yr - yl) * ((H / 2 - panY + H / (2 * zoom)) / H)), b⟩,
        dbg, cx, cy⟩ := by
  have h2 : (2 : ℚ) ≠ 0 := two_ne_zero
  exact redrawAtScale_returns
    ⟨g, ⟨fin W, fin H, fin zoom, fin panX, fin panY⟩,
      ⟨mw, mh, fin xl, fin xr, fin yl, fin yr, buff⟩, dbg, cx, cy⟩
    (fin (W / 2 - panX - 1 / zoom * W / 2)) (fin (W / 2 - panX + 1 / zoom * W / 2))
    (fin (H / 2 - panY - 1 / zoom * H / 2)) (fin (H / 2 - panY + 1 / zoom * H / 2))
    _ _ _ _
    (by simp [fin_div, hz, h2]) (by simp [fin_div, hz, h2])
    (by simp [fin_div, hz, h2]) (by simp [fin_div, hz, h2])
    (by rw [scale_fin _ _ _ _ _ (Ne.symm hW)]; congr 2; field_simp; ring)
    (by rw [scale_fin _ _ _ _ _ (Ne.symm hW)]; congr 2; field_simp; ring)
    (by rw [scale_fin _ _ _ _ _ (Ne.symm hH)]; congr 2; field_simp; ring)
    (by rw [scale_fin _ _ _ _ _ (Ne.symm hH)]; congr 2; field_simp; ring)
    hw hh

/-- C2: for every zoom > 0, zero pan, canvas width and height > 0 and any
prior finite bounds, the commit returns bounds whose width is
`(xr - xl) / zoom`, whose height is `(yr - yl) / zoom`, and whose centre
is the old centre (exact arithmetic). -/
theorem commit_zoom_about_centre (g : Globals) (W H zoom xl xr yl yr : ℚ)
    (mw mh : JSNum) (buff : Graphics) (dbg : Bool) (cx cy : JSNum)
    (hz : 0 < zoom) (hW : 0 < W) (hH : 0 < H) (hw : mw ≠ pinf) (hh : mh ≠ pinf) :
    ∃ xl1 xr1 yl1 yr1 : ℚ, ∃ b,
      redrawAtScale ⟨g, ⟨fin W, fin H, fin zoom, fin 0, fin 0⟩,
          ⟨mw, mh, fin xl, fin xr, fin yl, fin yr, buff⟩, dbg, cx, cy⟩
        = .returned ⟨g, ⟨fin W, fin H, fin 1, fin 0, fin 0⟩,
          ⟨mw, mh, fin xl1, fin xr1, fin yl1, fin yr1, b⟩, dbg, cx, cy⟩ ∧
      xr1 - xl1 = (xr - xl) / zoom ∧ yr1 - yl1 = (yr - yl) / zoom ∧
      (xl1 + xr1) / 2 = (xl + xr) / 2 ∧ (yl1 + yr1) / 2 = (yl + yr) / 2 := by
  obtain ⟨b, hb⟩ := redrawAtScale_fin g W H zoom 0 0 xl xr yl yr mw mh buff dbg cx cy
    hz.ne.symm hW.ne.symm hH.ne.symm hw hh
  have hz0 := hz.ne.symm
  have hW0 := hW.ne.symm
  have hH0 := hH.ne.symm
  refine ⟨_, _, _, _, b, hb, ?_, ?_, ?_, ?_⟩ <;> field_simp <;> ring

/-- C2 on the canvas 800×600 with bounds `[-5/2, 1] × [-1, 1]`, zoom 2 and no
pan: the commit returns the bounds `[-13/8, 1/8] × [-1/2, 1/2]`, half as
wide and half as high, with the same centre `(-3/4, 0)`. -/
theorem commit_zoom_about_centre_witness :
    ∃ b, redrawAtScale ⟨Globals.initial, ⟨fin 800, fin 600, fin 2, fin 0, fin 0⟩,
        ⟨fin 400, fin 300, fin (-5/2), fin 1, fin (-1), fin 1,
          createGraphics (fin 800) (fin 600)⟩, false, nan, nan⟩
      = .returned ⟨Globals.initial, ⟨fin 800, fin 600, fin 1, fin 0, fin 0⟩,
        ⟨fin 400, fin 300, fin (-13/8), fin (1/8), fin (-1/2), fin (1/2), b⟩,
        false, nan, nan⟩ := by
  obtain ⟨xl1, xr1, yl1, yr1, b, hb, h1, h2, h3, h4⟩ :=
    commit_zoom_about_centre Globals.initial 800 600 2 (-5/2) 1 (-1) 1 (fin 400) (fin 300)
      (createGraphics (fin 800) (fin 600)) false nan nan
      (by norm_num) (by norm_num) (by norm_num) (by simp) (by simp)
  have e1 : xl1 = -13/8 := by linarith
  have e2 : xr1 = 1/8 := by linarith
  have e3 : yl1 = -1/2 := by linarith
  have e4 : yr1 = 1/2 := by linarith
  subst e1 e2 e3 e4
  exact ⟨b, hb⟩

/-- C3, as stated, fails: on the canvas 800×600 with bounds
`[-5/2, 1] × [-1, 1]`, no pan and zoom `-1`, the commit does not throw
`InvalidViewportError`; it returns and stores the swapped bounds
`xlBound = 1`, `xrBound = -5/2`, `ylBound = 1`, `yrBound = -1`. -/
theorem commit_negative_zoom_returns :
    (∃ b, redrawAtScale ⟨Globals.initial, ⟨fin 800, fin 600, fin (-1), fin 0, fin 0⟩,
        ⟨fin 400, fin 300, fin (-5/2), fin 1, fin (-1), fin 1,
          createGraphics (fin 800) (fin 600)⟩, false, nan, nan⟩
      = .returned ⟨Globals.initial, ⟨fin 800, fin 600, fin 1, fin 0, fin 0⟩,
        ⟨fin 400, fin 300, fin 1, fin (-5/2), fin 1, fin (-1), b⟩, false, nan, nan⟩) ∧
    redrawAtScale ⟨Globals.initial, ⟨fin 800, fin 600, fin (-1), fin 0, fin 0⟩,
        ⟨fin 400, fin 300, fin (-5/2), fin 1, fin (-1), fin 1,
          createGraphics (fin 800) (fin 600)⟩, false, nan, nan⟩
      ≠ .threw .InvalidViewportError := by
  refine ⟨?_, redrawAtScale_not_threw _ _⟩
  obtain ⟨b, hb⟩ := redrawAtScale_fin Globals.initial 800 600 (-1) 0 0 (-5/2) 1 (-1) 1
    (fin 400) (fin 300) (createGraphics (fin 800) (fin 600)) false nan nan
    (by norm_num) (by norm_num) (by norm_num) (by simp) (by simp)
  refine ⟨b, ?_⟩
  rw [hb]
  norm_num

/-- C5: for every finite zoom ≠ 0, pan and canvas size and any old bounds,
the commit returns, and each new bound is `_scale` of its screen border
over the old bounds: `xlBound` and `xrBound` both over the old
`(xl, xr)`, `ylBound` and `yrBound` both over the old `(yl, yr)`. -/
theorem commit_bounds_from_old (g : Globals) (W H zoom panX panY : ℚ)
    (mw mh xl xr yl yr : JSNum) (buff : Graphics) (dbg : Bool) (cx cy : JSNum)
    (hz : zoom ≠ 0) (hw : mw ≠ pinf) (hh : mh ≠ pinf) :
    ∃ st1, redrawAtScale ⟨g, ⟨fin W, fin H, fin zoom, fin panX, fin panY⟩,
          ⟨mw, mh, xl, xr, yl, yr, buff⟩, dbg, cx, cy⟩ = .returned st1 ∧
      _scale (fin (W / 2 - panX - W / (2 * zoom))) (fin 0) (fin W) xl xr
        = .returned st1.m.xlBound ∧
      _scale (fin (W / 2 - panX + W / (2 * zoom))) (fin 0) (fin W) xl xr
        = .returned st1.m.xrBound ∧
      _scale (fin (H / 2 - panY - H / (2 * zoom))) (fin 0) (fin H) yl yr
        = .returned st1.m.ylBound ∧
      _scale (fin (H / 2 - panY + H / (2 * zoom))) (fin 0) (fin H) yl yr
        = .returned st1.m.yrBound := by
  have h2 : (2 : ℚ) ≠ 0 := two_ne_zero
  obtain ⟨b, hb⟩ := redrawAtScale_returns
    ⟨g, ⟨fin W, fin H, fin zoom, fin panX, fin panY⟩, ⟨mw, mh, xl, xr, yl, yr, buff⟩, dbg, cx, cy⟩
    (fin (W / 2 - panX - W / (2 * zoom))) (fin (W / 2 - panX + W / (2 * zoom)))
    (fin (H / 2 - panY - H / (2 * zoom))) (fin (H / 2 - panY + H / (2 * zoom)))
    _ _ _ _
    (by simp [fin_div, hz, h2]; ring) (by simp [fin_div, hz, h2]; ring)
    (by simp [fin_div, hz, h2]; ring) (by simp [fin_div, hz, h2]; ring)
    (scale_eq _ _ _ _ _) (scale_eq _ _ _ _ _) (scale_eq _ _ _ _ _) (scale_eq _ _ _ _ _)
    hw hh
  exact ⟨_, hb, scale_eq _ _ _ _ _, scale_eq _ _ _ _ _, scale_eq _ _ _ _ _, scale_eq _ _ _ _ _⟩

/-- C5 on the canvas 800×600 with zoom 2, pan `(10, -20)` and the bounds
`[-5/2, 1] × [-1, 1]`. -/
theorem commit_bounds_from_old_witness :
    ∃ st1, redrawAtScale ⟨Globals.initial, ⟨fin 800, fin 600, fin 2, fin 10, fin (-20)⟩,
          ⟨fin 400, fin 300, fin (-5/2), fin 1, fin (-1), fin 1,
            createGraphics (fin 800) (fin 600)⟩, false, nan, nan⟩ = .returned st1 ∧
      _scale (fin (800 / 2 - 10 - 800 / (2 * 2))) (fin 0) (fin 800) (fin (-5/2)) (fin 1)
        = .returned st1.m.xlBound ∧
      _scale (fin (800 / 2 - 10 + 800 / (2 * 2))) (fin 0) (fin 800) (fin (-5/2)) (fin 1)
        = .returned st1.m.xrBound ∧
      _scale (fin (600 / 2 - (-20) - 600 / (2 * 2))) (fin 0) (fin 600) (fin (-1)) (fin 1)
        = .returned st1.m.ylBound ∧
      _scale (fin (600 / 2 - (-20) + 600 / (2 * 2))) (fin 0) (fin 600) (fin (-1)) (fin 1)
        = .returned st1.m.yrBound :=
  commit_bounds_from_old Globals.initial 800 600 2 10 (-20) (fin 400) (fin 300)
    (fin (-5/2)) (fin 1) (fin (-1)) (fin 1) (createGraphics (fin 800) (fin 600)) false nan nan
    (by norm_num) (by simp) (by simp)

/-- C10: for prior finite bounds with `xl < xr` and `yl < yr`, canvas width
and height > 0, any pan and zoom > 0, the commit returns bounds that again
satisfy `xlBound < xrBound` and `ylBound < yrBound` (exact arithmetic). -/
theorem commit_preserves_order (g : Globals) (W H zoom panX panY xl xr yl yr : ℚ)
    (mw mh : JSNum) (buff : Graphics) (dbg : Bool) (cx cy : JSNum)
    (hz : 0 < zoom) (hW : 0 < W) (hH : 0 < H) (hx : xl < xr) (hy : yl < yr)
    (hw : mw ≠ pinf) (hh : mh ≠ pinf) :
    ∃ xl1 xr1 yl1 yr1 : ℚ, ∃ b,
      redrawAtScale ⟨g, ⟨fin W, fin H, fin zoom, fin panX, fin panY⟩,
          ⟨mw, mh, fin xl, fin xr, fin yl, fin yr, buff⟩, dbg, cx, cy⟩
        = .returned ⟨g, ⟨fin W, fin H, fin 1, fin 0, fin 0⟩,
          ⟨mw, mh, fin xl1, fin xr1, fin yl1, fin yr1, b⟩, dbg, cx, cy⟩ ∧
      xl1 < xr1 ∧ yl1 < yr1 := by
  obtain ⟨b, hb⟩ := redrawAtScale_fin g W H zoom panX panY xl xr yl yr mw mh buff dbg cx cy
    hz.ne.symm hW.ne.symm hH.ne.symm hw hh
  have hz0 := hz.ne.symm
  have key : ∀ a c p S : ℚ, a < c → 0 < S →
      a + (c - a) * ((S / 2 - p - S / (2 * zoom)) / S)
        < a + (c - a) * ((S / 2 - p + S / (2 * zoom)) / S) := by
    intro a c p S hac hS
    have hS0 := hS.ne.symm
    have e : a + (c - a) * ((S / 2 - p + S / (2 * zoom)) / S)
        - (a + (c - a) * ((S / 2 - p - S / (2 * zoom)) / S)) = (c - a) / zoom := by
      field_simp
      ring
    have hpos : 0 < (c - a) / zoom := div_pos (sub_pos.mpr hac) hz
    linarith
  exact ⟨_, _, _, _, b, hb, key xl xr panX W hx hW, key yl yr panY H hy hH⟩

/-- C10 on the canvas 800×600 with zoom `1/2`, pan `(300, -200)` and the
bounds `[-5/2, 1] × [-1, 1]`. -/
theorem commit_preserves_order_witness :
    ∃ xl1 xr1 yl1 yr1 : ℚ, ∃ b,
      redrawAtScale ⟨Globals.initial, ⟨fin 800, fin 600, fin (1/2), fin 300, fin (-200)⟩,
          ⟨fin 400, fin 300, fin (-5/2), fin 1, fin (-1), fin 1,
            createGraphics (fin 800) (fin 600)⟩, false, nan, nan⟩
        = .returned ⟨Globals.initial, ⟨fin 800, fin 600, fin 1, fin 0, fin 0⟩,
          ⟨fin 400, fin 300, fin xl1, fin xr1, fin yl1, fin yr1, b⟩, false, nan, nan⟩ ∧
      xl1 < xr1 ∧ yl1 < yr1 :=
  commit_preserves_order Globals.initial 800 600 (1/2) 300 (-200) (-5/2) 1 (-1) 1
    (fin 400) (fin 300) (createGraphics (fin 800) (fin 600)) false nan nan
    (by norm_num) (by norm_num) (by norm_num) (by norm_num) (by norm_num) (by simp) (by simp)

/-! ## The escape-time loop of `_calculatePixel` -/

/-- The call `_calculatePixel` returns the iteration count of the final loop state. -/
theorem calculatePixel_eq (g : Globals) (m : Mandelbrot) (Px Py x0 y0 : JSNum)
    (hx : _scale Px (fin 0) m.width m.xlBound m.xrBound = .returned x0)
    (hy : _scale Py (fin 0) m.height m.ylBound m.yrBound = .returned y0) :
    _calculatePixel g m Px Py = .returned (finalLoopState g x0 y0).iteration := by
  unfold _calculatePixel
  rw [hx, hy]
  rfl

/-- When the fuel covers the passes left, the loop ends with its condition false. -/
theorem whileLoop_guard_false (g : Globals) (x0 y0 : JSNum) (N : ℕ) (fuel : ℕ) (s : LoopState)
    (h : N ≤ s.iteration + fuel) :
    loopGuard N (whileLoop g x0 y0 N fuel s) = false := by
  induction fuel generalizing s with
  | zero =>
    have : ¬ s.iteration < N := by omega
    simp [whileLoop, loopGuard, this]
  | succ fuel ih =>
    unfold whileLoop
    by_cases hg : loopGuard N s = true
    · rw [if_pos hg]
      apply ih
      show N ≤ s.iteration + 1 + fuel
      omega
    · rw [if_neg hg]
      simpa using hg

/-- The count never passes `maxIteration`. -/
theorem whileLoop_iteration_le (g : Globals) (x0 y0 : JSNum) (N : ℕ) (fuel : ℕ) (s : LoopState)
    (h : s.iteration ≤ N) :
    (whileLoop g x0 y0 N fuel s).iteration ≤ N := by
  induction fuel generalizing s with
  | zero => exact h
  | succ fuel ih =>
    unfold whileLoop
    by_cases hg : loopGuard N s = true
    · rw [if_pos hg]
      apply ih
      have hlt : s.iteration < N := by
        unfold loopGuard at hg
        simp only [Bool.and_eq_true, decide_eq_true_eq] at hg
        exact hg.2
      exact hlt
    · rw [if_neg hg]
      exact h

/-- The loop on the point `c = 0` stays at the origin and counts up to `maxIteration`. -/
theorem whileLoop_origin (g : Globals) (N : ℕ) (fuel i : ℕ) (h : i + fuel = N) :
    whileLoop g (fin 0) (fin 0) N fuel ⟨fin 0, fin 0, i⟩ = ⟨fin 0, fin 0, N⟩ := by
  induction fuel generalizing i with
  | zero =>
    have : i = N := by omega
    subst this
    rfl
  | succ fuel ih =>
    have hlt : i < N := by omega
    have hg : loopGuard N ⟨fin 0, fin 0, i⟩ = true := by
      simp [loopGuard, hlt]
    have hb : loopBody g (fin 0) (fin 0) ⟨fin 0, fin 0, i⟩ = ⟨fin 0, fin 0, i + 1⟩ := by
      simp [loopBody]
    unfold whileLoop
    rw [if_pos hg, hb]
    exact ih (i + 1) (by omega)

/-- C6, amended: in exact arithmetic, for bounds symmetric about the origin and a buffer of non-zero width
and height, the centre pixel `(width/2, height/2)` maps to `c = 0` and
`_calculatePixel` returns `iterations`, for every value of `iterations`
(and of `power`). -/
theorem centre_pixel_never_escapes (g : Globals) (w h xl xr yl yr : ℚ) (buff : Graphics)
    (hw : w ≠ 0) (hh : h ≠ 0) (hx : xl = -xr) (hy : yl = -yr) :
    _scale (fin (w / 2)) (fin 0) (fin w) (fin xl) (fin xr) = .returned (fin 0) ∧
    _scale (fin (h / 2)) (fin 0) (fin h) (fin yl) (fin yr) = .returned (fin 0) ∧
    _calculatePixel g ⟨fin w, fin h, fin xl, fin xr, fin yl, fin yr, buff⟩
      (fin (w / 2)) (fin (h / 2)) = .returned g.iterations := by
  have e1 : _scale (fin (w / 2)) (fin 0) (fin w) (fin xl) (fin xr) = .returned (fin 0) := by
    rw [scale_fin _ _ _ _ _ (Ne.symm hw), hx]
    congr 2
    field_simp
    ring
  have e2 : _scale (fin (h / 2)) (fin 0) (fin h) (fin yl) (fin yr) = .returned (fin 0) := by
    rw [scale_fin _ _ _ _ _ (Ne.symm hh), hy]
    congr 2
    field_simp
    ring
  refine ⟨e1, e2, ?_⟩
  rw [calculatePixel_eq g _ _ _ _ _ e1 e2]
  unfold finalLoopState
  rw [whileLoop_origin g g.iterations g.iterations 0 (by omega)]

/-- C6, amended, with the values of the source (`iterations = 100`, `power = 2`): on
the window `[-2, 2] × [-1, 1]` and a 400×300 buffer, the centre pixel
`(200, 150)` maps to `c = 0` and the count is `100`. -/
theorem centre_pixel_never_escapes_witness :
    _scale (fin (400 / 2)) (fin 0) (fin 400) (fin (-2)) (fin 2) = .returned (fin 0) ∧
    _scale (fin (300 / 2)) (fin 0) (fin 300) (fin (-1)) (fin 1) = .returned (fin 0) ∧
    _calculatePixel Globals.initial
      ⟨fin 400, fin 300, fin (-2), fin 2, fin (-1), fin 1, createGraphics (fin 800) (fin 600)⟩
      (fin (400 / 2)) (fin (300 / 2)) = .returned 100 :=
  centre_pixel_never_escapes Globals.initial 400 300 (-2) 2 (-1) 1
    (createGraphics (fin 800) (fin 600)) (by norm_num) (by norm_num) rfl rfl

/-- The first pass of the loop moves the orbit from the origin to `c`. -/
theorem loopBody_origin (g : Globals) (x0 y0 : ℚ) :
    loopBody g (fin x0) (fin y0) ⟨fin 0, fin 0, 0⟩ = ⟨fin x0, fin y0, 1⟩ := by
  simp [loopBody]

/-- For a point `c` outside the circle of radius 2 the loop makes one pass,
or none when `iterations = 0`. -/
theorem finalLoopState_outside (g : Globals) (x0 y0 : ℚ) (hc : x0 ^ 2 + y0 ^ 2 > 4) :
    (finalLoopState g (fin x0) (fin y0)).iteration = min 1 g.iterations := by
  unfold finalLoopState
  cases hN : g.iterations with
  | zero => rfl
  | succ n =>
    have hg0 : loopGuard (n + 1) ⟨fin 0, fin 0, 0⟩ = true := by
      simp [loopGuard]
    have hg1 : loopGuard (n + 1) ⟨fin x0, fin y0, 1⟩ = false := by
      have : ¬ (x0 ^ 2 + y0 ^ 2 ≤ 2 ^ 2) := by
        norm_num
        exact hc
      simp [loopGuard, this]
    have h1 : min 1 (n + 1) = 1 := by omega
    rw [h1]
    show (whileLoop g (fin x0) (fin y0) (n + 1) (n + 1) ⟨fin 0, fin 0, 0⟩).iteration = 1
    unfold whileLoop
    rw [if_pos hg0, loopBody_origin]
    cases n with
    | zero => rfl
    | succ k =>
      unfold whileLoop
      rw [hg1]
      rfl

/-- C7, amended: in exact arithmetic, for every pixel whose plane coordinate `c = (x0, y0)` satisfies
`x0² + y0² > 4`, `_calculatePixel` returns `0` or `1`. -/
theorem escaped_point_count (g : Globals) (m : Mandelbrot) (Px Py : JSNum) (x0 y0 : ℚ)
    (hx : _scale Px (fin 0) m.width m.xlBound m.xrBound = .returned (fin x0))
    (hy : _scale Py (fin 0) m.height m.ylBound m.yrBound = .returned (fin y0))
    (hc : x0 ^ 2 + y0 ^ 2 > 4) :
    _calculatePixel g m Px Py = .returned 0 ∨ _calculatePixel g m Px Py = .returned 1 := by
  rw [calculatePixel_eq g m Px Py _ _ hx hy, finalLoopState_outside g x0 y0 hc]
  rcases Nat.eq_zero_or_pos g.iterations with h0 | hpos
  · left
    rw [h0]
    rfl
  · right
    rw [Nat.min_eq_left hpos]

/-- C7, amended, at the plane point `(2, 2)`: on the window `[0, 4] × [0, 4]` and a
400×300 buffer, the pixel `(200, 150)` maps to `c = (2, 2)`, and with the
values of the source the count is `0` or `1`. -/
theorem escaped_point_count_witness :
    _calculatePixel Globals.initial
        ⟨fin 400, fin 300, fin 0, fin 4, fin 0, fin 4, createGraphics (fin 800) (fin 600)⟩
        (fin 200) (fin 150) = .returned 0 ∨
    _calculatePixel Globals.initial
        ⟨fin 400, fin 300, fin 0, fin 4, fin 0, fin 4, createGraphics (fin 800) (fin 600)⟩
        (fin 200) (fin 150) = .returned 1 :=
  escaped_point_count Globals.initial
    ⟨fin 400, fin 300, fin 0, fin 4, fin 0, fin 4, createGraphics (fin 800) (fin 600)⟩
    (fin 200) (fin 150) 2 2
    (by rw [scale_fin _ _ _ _ _ (by norm_num)]; norm_num)
    (by rw [scale_fin _ _ _ _ _ (by norm_num)]; norm_num)
    (by norm_num)

/-- C8, as stated, fails: with `iterations = 1`, the initial bounds and a
400×300 buffer, the pixel `(0, 0)` maps to `c = (-5/2, -1)`; the loop makes
its one pass and ends at `(x, y) = (-5/2, -1)` with `x² + y² = 29/4 > 4`.
The count returned is `1 = iterations` although the orbit has escaped. -/
theorem escape_on_last_pass :
    _scale (fin 0) (fin 0) (fin 400) (fin (-5/2)) (fin 1) = .returned (fin (-5/2)) ∧
    _scale (fin 0) (fin 0) (fin 300) (fin (-1)) (fin 1) = .returned (fin (-1)) ∧
    finalLoopState ⟨fin 2, 1, 2⟩ (fin (-5/2)) (fin (-1)) = ⟨fin (-5/2), fin (-1), 1⟩ ∧
    _calculatePixel ⟨fin 2, 1, 2⟩
      ⟨fin 400, fin 300, fin (-5/2), fin 1, fin (-1), fin 1, createGraphics (fin 800) (fin 600)⟩
      (fin 0) (fin 0) = .returned 1 ∧
    le (pow (fin (-5/2)) 2 + pow (fin (-1)) 2) (pow (fin 2) 2) = false ∧
    ¬ ((finalLoopState ⟨fin 2, 1, 2⟩ (fin (-5/2)) (fin (-1))).iteration = 1 ↔
        ((-5/2 : ℚ) ^ 2 + (-1) ^ 2 ≤ 2 ^ 2)) := by
  have e1 : _scale (fin 0) (fin 0) (fin 400) (fin (-5/2)) (fin 1) = .returned (fin (-5/2)) := by
    rw [scale_fin _ _ _ _ _ (by norm_num)]
    norm_num
  have e2 : _scale (fin 0) (fin 0) (fin 300) (fin (-1)) (fin 1) = .returned (fin (-1)) := by
    rw [scale_fin _ _ _ _ _ (by norm_num)]
    norm_num
  have e3 : finalLoopState ⟨fin 2, 1, 2⟩ (fin (-5/2)) (fin (-1)) = ⟨fin (-5/2), fin (-1), 1⟩ := by
    have hg0 : loopGuard 1 ⟨fin 0, fin 0, 0⟩ = true := by simp [loopGuard]
    show whileLoop ⟨fin 2, 1, 2⟩ (fin (-5/2)) (fin (-1)) 1 1 ⟨fin 0, fin 0, 0⟩ = _
    unfold whileLoop
    rw [if_pos hg0, loopBody_origin]
    rfl
  refine ⟨e1, e2, e3, ?_, ?_, ?_⟩
  · rw [calculatePixel_eq _ _ _ _ _ _ e1 e2, e3]
  · norm_num
  · rw [e3]
    norm_num

/-- C8, amended: the count returned by `_calculatePixel` is the count of the
state in which the loop ends; it is at most `iterations`; if it is below
`iterations` the loop ended because the test `x² + y² <= 4` failed (the
orbit escaped); and if the test still holds at the end (the orbit has not
escaped) the count is `iterations`. -/
theorem count_separates_escape (g : Globals) (m : Mandelbrot) (Px Py : JSNum) :
    ∃ x0 y0 : JSNum, ∃ s : LoopState,
      _scale Px (fin 0) m.width m.xlBound m.xrBound = .returned x0 ∧
      _scale Py (fin 0) m.height m.ylBound m.yrBound = .returned y0 ∧
      s = finalLoopState g x0 y0 ∧
      _calculatePixel g m Px Py = .returned s.iteration ∧
      s.iteration ≤ g.iterations ∧
      (s.iteration < g.iterations → le (pow s.x 2 + pow s.y 2) (pow (fin 2) 2) = false) ∧
      (le (pow s.x 2 + pow s.y 2) (pow (fin 2) 2) = true → s.iteration = g.iterations) := by
  refine ⟨_, _, _, scale_eq _ _ _ _ _, scale_eq _ _ _ _ _, rfl,
    calculatePixel_eq g m Px Py _ _ (scale_eq _ _ _ _ _) (scale_eq _ _ _ _ _), ?_, ?_, ?_⟩
  · exact whileLoop_iteration_le g _ _ g.iterations g.iterations _ (Nat.zero_le _)
  · intro hlt
    have hg := whileLoop_guard_false g
      ((m.xrBound - m.xlBound) * ((Px - fin 0) / (m.width - fin 0)) + m.xlBound)
      ((m.yrBound - m.ylBound) * ((Py - fin 0) / (m.height - fin 0)) + m.ylBound)
      g.iterations g.iterations ⟨fin 0, fin 0, 0⟩ (by simp)
    unfold loopGuard at hg
    unfold finalLoopState at hlt ⊢
    simp only [Bool.and_eq_false_imp, decide_eq_false_iff_not] at hg
    by_contra hne
    exact hg (by simpa using hne) hlt
  · intro hle
    have hg := whileLoop_guard_false g
      ((m.xrBound - m.xlBound) * ((Px - fin 0) / (m.width - fin 0)) + m.xlBound)
      ((m.yrBound - m.ylBound) * ((Py - fin 0) / (m.height - fin 0)) + m.ylBound)
      g.iterations g.iterations ⟨fin 0, fin 0, 0⟩ (by simp)
    have hle2 := whileLoop_iteration_le g
      ((m.xrBound - m.xlBound) * ((Px - fin 0) / (m.width - fin 0)) + m.xlBound)
      ((m.yrBound - m.ylBound) * ((Py - fin 0) / (m.height - fin 0)) + m.ylBound)
      g.iterations g.iterations ⟨fin 0, fin 0, 0⟩ (Nat.zero_le _)
    unfold loopGuard at hg
    unfold finalLoopState at hle ⊢
    simp only [Bool.and_eq_false_imp, decide_eq_false_iff_not] at hg
    exact Nat.le_antisymm hle2 (Nat.le_of_not_lt (hg hle))

/-! ## The palette lookup `_setColor` -/

/-- Every remainder modulo 16 is a key of the table `colors`. -/
theorem colors_defined (k : ℕ) : ∃ c, colors (k % 16) = some c := by
  have h : k % 16 < 16 := Nat.mod_lt _ (by decide)
  generalize k % 16 = r at h
  interval_cases r <;> exact ⟨_, rfl⟩

/-- C9: `_setColor` returns the interior colour `color(0)`, black, when
`iter` equals `iterations`; for every `k < iterations` it returns the
palette entry `colors[k mod 16]`, which is defined; hence
`_setColor(k + 16) = _setColor(k)` when `k + 16 < iterations`, and
`_setColor(16) = _setColor(0)` when `16 < iterations`. -/
theorem setColor_palette (g : Globals) :
    _setColor g g.iterations = .returned (some (colorGray 0)) ∧
    colorGray 0 = ⟨0, 0, 0⟩ ∧
    (∀ k, k < g.iterations →
      _setColor g k = .returned (colors (k % 16)) ∧ ∃ c, colors (k % 16) = some c) ∧
    (∀ k, k + 16 < g.iterations → _setColor g (k + 16) = _setColor g k) ∧
    (16 < g.iterations → _setColor g 16 = _setColor g 0) := by
  have hlt : ∀ k, k < g.iterations → _setColor g k = .returned (colors (k % 16)) := by
    intro k hk
    show Outcome.returned (if k = g.iterations then some (colorGray 0) else colors (k % 16)) = _
    rw [if_neg (Nat.ne_of_lt hk)]
  have hper : ∀ k, k + 16 < g.iterations → _setColor g (k + 16) = _setColor g k := by
    intro k hk
    rw [hlt (k + 16) hk, hlt k (by omega), Nat.add_mod_right]
  refine ⟨?_, rfl, fun k hk => ⟨hlt k hk, colors_defined k⟩, hper, fun h => ?_⟩
  · show Outcome.returned (if g.iterations = g.iterations then some (colorGray 0) else _) = _
    rw [if_pos rfl]
  · exact hper 0 (by omega)

/-- C9 with `iterations = 100`: `_setColor(100)` is black,
`_setColor(16) = _setColor(0)` is the first palette entry, and
`_setColor(37)` is the entry of key `37 mod 16 = 5`. -/
theorem setColor_palette_witness :
    _setColor Globals.initial 100 = .returned (some ⟨0, 0, 0⟩) ∧
    _setColor Globals.initial 16 = _setColor Globals.initial 0 ∧
    _setColor Globals.initial 0 = .returned (some (color 66 30 15)) ∧
    _setColor Globals.initial 37 = .returned (some (color 12 44 138)) := by
  obtain ⟨h1, _, h3, _, h5⟩ := setColor_palette Globals.initial
  exact ⟨h1, h5 (by decide), (h3 0 (by decide)).1, (h3 37 (by decide)).1⟩

/-! ## The rescaling `_scale` as an affine map -/

/-- C12, amended: in exact arithmetic, for `srcMin ≠ srcMax`, `_scale` sends `srcMin` to `dstMin` and
`srcMax` to `dstMax`; every value `v`, inside the source range or not, goes
to `dstMin + (dstMax - dstMin) · (v - srcMin) / (srcMax - srcMin)`; and for
`srcMin < srcMax` and `dstMin ≤ dstMax` a value of `[srcMin, srcMax]` goes
into `[dstMin, dstMax]`. -/
theorem scale_affine (srcMin srcMax dstMin dstMax : ℚ) (h : srcMin ≠ srcMax) :
    _scale (fin srcMin) (fin srcMin) (fin srcMax) (fin dstMin) (fin dstMax)
      = .returned (fin dstMin) ∧
    _scale (fin srcMax) (fin srcMin) (fin srcMax) (fin dstMin) (fin dstMax)
      = .returned (fin dstMax) ∧
    (∀ v : ℚ, _scale (fin v) (fin srcMin) (fin srcMax) (fin dstMin) (fin dstMax)
      = .returned (fin (dstMin + (dstMax - dstMin) * (v - srcMin) / (srcMax - srcMin)))) ∧
    (srcMin < srcMax → dstMin ≤ dstMax → ∀ v : ℚ, srcMin ≤ v → v ≤ srcMax →
      ∃ r : ℚ, _scale (fin v) (fin srcMin) (fin srcMax) (fin dstMin) (fin dstMax)
          = .returned (fin r) ∧ dstMin ≤ r ∧ r ≤ dstMax) := by
  have hd : srcMax - srcMin ≠ 0 := sub_ne_zero.mpr (Ne.symm h)
  refine ⟨?_, ?_, ?_, ?_⟩
  · rw [scale_fin _ _ _ _ _ h]
    congr 2
    field_simp
  · rw [scale_fin _ _ _ _ _ h]
    congr 2
    field_simp
  · intro v
    rw [scale_fin _ _ _ _ _ h]
    congr 2
    field_simp
    ring
  · intro hlt hle v hv1 hv2
    refine ⟨_, scale_fin _ _ _ _ _ h, ?_, ?_⟩
    · have h1 : 0 ≤ (v - srcMin) / (srcMax - srcMin) :=
        div_nonneg (sub_nonneg.mpr hv1) (sub_pos.mpr hlt).le
      have h2 : 0 ≤ (dstMax - dstMin) * ((v - srcMin) / (srcMax - srcMin)) :=
        mul_nonneg (sub_nonneg.mpr hle) h1
      linarith
    · have h1 : (v - srcMin) / (srcMax - srcMin) ≤ 1 := by
        rw [div_le_one (sub_pos.mpr hlt)]
        linarith
      have h2 : (dstMax - dstMin) * ((v - srcMin) / (srcMax - srcMin)) ≤ (dstMax - dstMin) * 1 :=
        mul_le_mul_of_nonneg_left h1 (sub_nonneg.mpr hle)
      linarith

/-- C12, amended, on the pixel-to-plane map of a buffer 400 wide over `[-5/2, 1]`: the
ends go to the ends, the pixel `100` goes to `-13/8`, and the pixel `600`,
outside the buffer, goes to `11/4` on the same line. -/
theorem scale_affine_witness :
    _scale (fin 0) (fin 0) (fin 400) (fin (-5/2)) (fin 1) = .returned (fin (-5/2)) ∧
    _scale (fin 400) (fin 0) (fin 400) (fin (-5/2)) (fin 1) = .returned (fin 1) ∧
    _scale (fin 100) (fin 0) (fin 400) (fin (-5/2)) (fin 1) = .returned (fin (-13/8)) ∧
    _scale (fin 600) (fin 0) (fin 400) (fin (-5/2)) (fin 1) = .returned (fin (11/4)) := by
  obtain ⟨h1, h2, h3, _⟩ := scale_affine 0 400 (-5/2) 1 (by norm_num)
  refine ⟨h1, h2, ?_, ?_⟩
  · rw [h3 100]
    norm_num
  · rw [h3 600]
    norm_num

/-! ## The palette lookup is total -/

/-- C14: for every natural `iter` and every value of `iterations`,
`_setColor` returns a defined colour, the interior colour or one of the 16
palette entries; it does not throw and the lookup is not `undefined`. -/
theorem setColor_total (g : Globals) (iter : ℕ) :
    ∃ c, _setColor g iter = .returned (some c) ∧
      (c = colorGray 0 ∨ ∃ k, k < 16 ∧ colors k = some c) := by
  by_cases h : iter = g.iterations
  · refine ⟨colorGray 0, ?_, Or.inl rfl⟩
    show Outcome.returned (if iter = g.iterations then some (colorGray 0) else _) = _
    rw [if_pos h]
  · obtain ⟨c, hc⟩ := colors_defined iter
    refine ⟨c, ?_, Or.inr ⟨iter % 16, Nat.mod_lt _ (by decide), hc⟩⟩
    show Outcome.returned (if iter = g.iterations then some (colorGray 0) else _) = _
    rw [if_neg h, hc]

/-! ## Input handlers -/

/-- When `buffer()` returns it has changed `buff` only. -/
theorem buffer_returned (g : Globals) (m m1 : Mandelbrot) (h : buffer g m = .returned m1) :
    ∃ b, m1 = { m with buff := b } := by
  have h2 : (forLoop m.width
      (fun x b => forLoop m.height (fun y b => bufferCell g m x y b) b)
      (createGraphics (m.width * g.scaleFactor) (m.height * g.scaleFactor)) >>= fun buff =>
        Outcome.returned { m with buff := buff }) = .returned m1 := h
  cases hl : forLoop m.width
      (fun x b => forLoop m.height (fun y b => bufferCell g m x y b) b)
      (createGraphics (m.width * g.scaleFactor) (m.height * g.scaleFactor)) with
  | returned b =>
    rw [hl] at h2
    exact ⟨b, (Outcome.returned.inj h2).symm⟩
  | threw e =>
    rw [hl] at h2
    exact Outcome.noConfusion h2
  | diverged =>
    rw [hl] at h2
    exact Outcome.noConfusion h2

/-- When the commit returns, the pending transform is the identity and the
canvas size, the buffer dimensions and the other variables are unchanged. -/
theorem redrawAtScale_returned (st st1 : World) (h : redrawAtScale st = .returned st1) :
    st1.Canvas = { st.Canvas with x := fin 0, y := fin 0, zoom := fin 1 } ∧
    st1.globals = st.globals ∧ st1.m.width = st.m.width ∧ st1.m.height = st.m.height ∧
    st1.DEBUG = st.DEBUG ∧ st1.posOnClickX = st.posOnClickX ∧
    st1.posOnClickY = st.posOnClickY := by
  rw [redrawAtScale_eq st _ _ _ _ _ _ _ _ rfl rfl rfl rfl (scale_eq _ _ _ _ _) (scale_eq _ _ _ _ _)
    (scale_eq _ _ _ _ _) (scale_eq _ _ _ _ _)] at h
  cases hb : buffer st.globals
      { st.m with
        xlBound := (st.m.xrBound - st.m.xlBound) *
          ((st.Canvas.width / fin 2 - st.Canvas.x
              - fin 1 / st.Canvas.zoom * st.Canvas.width / fin 2 - fin 0)
            / (st.Canvas.width - fin 0)) + st.m.xlBound
        xrBound := (st.m.xrBound - st.m.xlBound) *
          ((st.Canvas.width / fin 2 - st.Canvas.x
              + fin 1 / st.Canvas.zoom * st.Canvas.width / fin 2 - fin 0)
            / (st.Canvas.width - fin 0)) + st.m.xlBound
        ylBound := (st.m.yrBound - st.m.ylBound) *
          ((st.Canvas.height / fin 2 - st.Canvas.y
              - fin 1 / st.Canvas.zoom * st.Canvas.height / fin 2 - fin 0)
            / (st.Canvas.height - fin 0)) + st.m.ylBound
        yrBound := (st.m.yrBound - st.m.ylBound) *
          ((st.Canvas.height / fin 2 - st.Canvas.y
              + fin 1 / st.Canvas.zoom * st.Canvas.height / fin 2 - fin 0)
            / (st.Canvas.height - fin 0)) + st.m.ylBound } with
  | returned m1 =>
    rw [hb] at h
    obtain ⟨b, rfl⟩ := buffer_returned _ _ _ hb
    have e := Outcome.returned.inj h
    subst e
    exact ⟨rfl, rfl, rfl, rfl, rfl, rfl, rfl⟩
  | threw e =>
    rw [hb] at h
    exact Outcome.noConfusion h
  | diverged =>
    rw [hb] at h
    exact Outcome.noConfusion h

/-- Every handler other than the commit key returns and leaves the engine
`m` as it was. -/
theorem handle_keeps_engine (st : World) (ev : Event) (hev : ev ≠ .key "r") :
    ∃ st1, handle st ev = .returned st1 ∧ st1.m = st.m := by
  cases ev with
  | wheel deltaY =>
    show ∃ st1, mouseWheel st deltaY = .returned st1 ∧ st1.m = st.m
    unfold mouseWheel
    split_ifs <;> exact ⟨_, rfl, rfl⟩
  | down clientX clientY => exact ⟨_, rfl, rfl⟩
  | dragged clientX clientY => exact ⟨_, rfl, rfl⟩
  | key k =>
    have hk : k ≠ "r" := fun h => hev (by rw [h])
    show ∃ st1, keydown st k = .returned st1 ∧ st1.m = st.m
    unfold keydown
    rw [if_neg hk]
    split_ifs <;> exact ⟨_, rfl, rfl⟩

/-- C18: every input handler other than the commit key `r` (`mouseWheel`,
`mousedown`, `mouseDragged`, and the key presses `w`, `a`, `s`, `d`, `[`,
`]`, `v` and any other key) returns and leaves `xlBound`, `xrBound`,
`ylBound` and `yrBound` unchanged; the only handler that can change them is
the one that calls `redrawAtScale`. -/
theorem bounds_change_only_at_commit (st : World) (ev : Event) (hev : ev ≠ .key "r") :
    ∃ st1, handle st ev = .returned st1 ∧
      st1.m.xlBound = st.m.xlBound ∧ st1.m.xrBound = st.m.xrBound ∧
      st1.m.ylBound = st.m.ylBound ∧ st1.m.yrBound = st.m.yrBound := by
  obtain ⟨st1, h, hm⟩ := handle_keeps_engine st ev hev
  exact ⟨st1, h, by rw [hm], by rw [hm], by rw [hm], by rw [hm]⟩

/-- C18 for a scroll of the wheel with a pending zoom and pan, on the canvas
800×600 with the initial bounds. -/
theorem bounds_change_only_at_commit_witness :
    ∃ st1, handle ⟨Globals.initial, ⟨fin 800, fin 600, fin 2, fin 10, fin (-20)⟩,
          ⟨fin 400, fin 300, fin (-5/2), fin 1, fin (-1), fin 1,
            createGraphics (fin 800) (fin 600)⟩, false, nan, nan⟩ (.wheel (fin 3))
        = .returned st1 ∧
      st1.m.xlBound = fin (-5/2) ∧ st1.m.xrBound = fin 1 ∧
      st1.m.ylBound = fin (-1) ∧ st1.m.yrBound = fin 1 :=
  bounds_change_only_at_commit _ (.wheel (fin 3)) (fun h => Event.noConfusion h)

/-- A handler that returns keeps the pending zoom strictly positive. -/
theorem handle_zoom_pos (st st1 : World) (ev : Event)
    (hz : ∃ z : ℚ, 0 < z ∧ st.Canvas.zoom = fin z) (h : handle st ev = .returned st1) :
    ∃ z : ℚ, 0 < z ∧ st1.Canvas.zoom = fin z := by
  obtain ⟨z, hpos, hzoom⟩ := hz
  have hup : (0 : ℚ) < z * (102 / 100) := mul_pos hpos (by norm_num)
  have hdown : (0 : ℚ) < z * (98 / 100) := mul_pos hpos (by norm_num)
  cases ev with
  | wheel deltaY =>
    have h1 : mouseWheel st deltaY = .returned st1 := h
    unfold mouseWheel at h1
    split_ifs at h1
    · have e := Outcome.returned.inj h1
      subst e
      exact ⟨_, hup, by simp [hzoom]⟩
    · have e := Outcome.returned.inj h1
      subst e
      exact ⟨_, hdown, by simp [hzoom]⟩
  | down clientX clientY =>
    have e := Outcome.returned.inj (show Outcome.returned _ = Outcome.returned st1 from h)
    subst e
    exact ⟨z, hpos, hzoom⟩
  | dragged clientX clientY =>
    have e := Outcome.returned.inj (show Outcome.returned _ = Outcome.returned st1 from h)
    subst e
    exact ⟨z, hpos, hzoom⟩
  | key k =>
    have h1 : keydown st k = .returned st1 := h
    unfold keydown at h1
    split_ifs at h1
    · obtain ⟨hC, _⟩ := redrawAtScale_returned st st1 h1
      exact ⟨1, one_pos, by rw [hC]⟩
    all_goals
      have e := Outcome.returned.inj h1
      subst e
      first
        | exact ⟨z, hpos, hzoom⟩
        | exact ⟨z * (102 / 100), hup, congrArg (fun q => q * fin (102 / 100)) hzoom⟩
        | exact ⟨z * (98 / 100), hdown, congrArg (fun q => q * fin (98 / 100)) hzoom⟩

/-- A handler returns when neither buffer dimension is `Infinity`, and it
keeps the buffer dimensions. -/
theorem handle_returns (st : World) (ev : Event)
    (hw : st.m.width ≠ pinf) (hh : st.m.height ≠ pinf) :
    ∃ st1, handle st ev = .returned st1 ∧
      st1.m.width = st.m.width ∧ st1.m.height = st.m.height := by
  by_cases hev : ev = .key "r"
  · subst hev
    obtain ⟨b, hb⟩ := redrawAtScale_returns st _ _ _ _ _ _ _ _ rfl rfl rfl rfl
      (scale_eq _ _ _ _ _) (scale_eq _ _ _ _ _) (scale_eq _ _ _ _ _) (scale_eq _ _ _ _ _) hw hh
    have h : handle st (.key "r") = redrawAtScale st := by
      show keydown st "r" = redrawAtScale st
      unfold keydown
      rw [if_pos rfl]
    rw [h]
    obtain ⟨_, _, h3, h4, _⟩ := redrawAtScale_returned st _ hb
    exact ⟨_, hb, h3, h4⟩
  · obtain ⟨st1, h, hm⟩ := handle_keeps_engine st ev hev
    exact ⟨st1, h, by rw [hm], by rw [hm]⟩

theorem handleAll_nil (st : World) : handleAll st [] = .returned st := rfl

theorem handleAll_cons (st : World) (ev : Event) (events : List Event) :
    handleAll st (ev :: events) = (handle st ev >>= fun st1 => handleAll st1 events) := by
  unfold handleAll
  rw [List.foldlM_cons]

theorem handleAll_zoom_pos (events : List Event) (st st1 : World)
    (hz : ∃ z : ℚ, 0 < z ∧ st.Canvas.zoom = fin z) (h : handleAll st events = .returned st1) :
    ∃ z : ℚ, 0 < z ∧ st1.Canvas.zoom = fin z := by
  induction events generalizing st with
  | nil =>
    have e := Outcome.returned.inj (show Outcome.returned st = Outcome.returned st1 from h)
    subst e
    exact hz
  | cons ev events ih =>
    rw [handleAll_cons] at h
    cases hs : handle st ev with
    | returned st2 =>
      rw [hs] at h
      exact ih st2 (handle_zoom_pos st st2 ev hz hs) h
    | threw e =>
      rw [hs] at h
      exact Outcome.noConfusion h
    | diverged =>
      rw [hs] at h
      exact Outcome.noConfusion h

theorem handleAll_returns (events : List Event) (st : World)
    (hw : st.m.width ≠ pinf) (hh : st.m.height ≠ pinf) :
    ∃ st1, handleAll st events = .returned st1 := by
  induction events generalizing st with
  | nil => exact ⟨st, rfl⟩
  | cons ev events ih =>
    obtain ⟨st2, hs, h3, h4⟩ := handle_returns st ev hw hh
    obtain ⟨st1, h1⟩ := ih st2 (by rw [h3]; exact hw) (by rw [h4]; exact hh)
    exact ⟨st1, by rw [handleAll_cons, hs]; exact h1⟩

/-- C11: starting from `Canvas.zoom = 1`, after any finite sequence of input
events (wheel with any `deltaY`, mouse down, drag, any key press) that has
been handled, `Canvas.zoom` is a strictly positive number (exact
arithmetic); and the sequence is handled to its end when neither buffer
dimension is `Infinity`. -/
theorem zoom_stays_positive (st : World) (hz : st.Canvas.zoom = fin 1) (events : List Event) :
    (∀ st1, handleAll st events = .returned st1 →
      ∃ z : ℚ, 0 < z ∧ st1.Canvas.zoom = fin z) ∧
    (st.m.width ≠ pinf → st.m.height ≠ pinf → ∃ st1, handleAll st events = .returned st1) :=
  ⟨fun st1 h => handleAll_zoom_pos events st st1 ⟨1, one_pos, hz⟩ h,
    fun hw hh => handleAll_returns events st hw hh⟩

/-- C11 on the canvas 800×600 with the initial bounds: a scroll out, the key
`[`, a drag, the commit key `r` and the key `]` are handled, and the zoom
is then strictly positive. -/
theorem zoom_stays_positive_witness :
    ∃ st1, handleAll ⟨Globals.initial, ⟨fin 800, fin 600, fin 1, fin 0, fin 0⟩,
          ⟨fin 400, fin 300, fin (-5/2), fin 1, fin (-1), fin 1,
            createGraphics (fin 800) (fin 600)⟩, false, nan, nan⟩
          [.wheel (fin (-1)), .key "[", .down (fin 5) (fin 5), .dragged (fin 9) (fin 2),
            .key "r", .key "]"]
        = .returned st1 ∧ ∃ z : ℚ, 0 < z ∧ st1.Canvas.zoom = fin z := by
  obtain ⟨h1, h2⟩ := zoom_stays_positive
    ⟨Globals.initial, ⟨fin 800, fin 600, fin 1, fin 0, fin 0⟩,
      ⟨fin 400, fin 300, fin (-5/2), fin 1, fin (-1), fin 1,
        createGraphics (fin 800) (fin 600)⟩, false, nan, nan⟩ rfl
    [.wheel (fin (-1)), .key "[", .down (fin 5) (fin 5), .dragged (fin 9) (fin 2),
      .key "r", .key "]"]
  obtain ⟨st1, hs⟩ := h2 (by simp) (by simp)
  exact ⟨st1, hs, h1 st1 hs⟩

/-! ## The commit resets the pending transform -/

/-- A commit of the identity transform on a finite canvas of non-zero size
and finite bounds returns the same bounds. -/
theorem redrawAtScale_identity (g : Globals) (W H xl xr yl yr : ℚ)
    (mw mh : JSNum) (buff : Graphics) (dbg : Bool) (cx cy : JSNum)
    (hW : W ≠ 0) (hH : H ≠ 0) (hw : mw ≠ pinf) (hh : mh ≠ pinf) :
    ∃ b, redrawAtScale ⟨g, ⟨fin W, fin H, fin 1, fin 0, fin 0⟩,
        ⟨mw, mh, fin xl, fin xr, fin yl, fin yr, buff⟩, dbg, cx, cy⟩
      = .returned ⟨g, ⟨fin W, fin H, fin 1, fin 0, fin 0⟩,
        ⟨mw, mh, fin xl, fin xr, fin yl, fin yr, b⟩, dbg, cx, cy⟩ := by
  obtain ⟨b, hb⟩ := redrawAtScale_fin g W H 1 0 0 xl xr yl yr mw mh buff dbg cx cy
    one_ne_zero hW hH hw hh
  refine ⟨b, ?_⟩
  rw [hb]
  have e1 : (W / 2 - 0 - W / (2 * 1)) / W = 0 := by simp
  have e2 : (W / 2 - 0 + W / (2 * 1)) / W = 1 := by field_simp
  have e3 : (H / 2 - 0 - H / (2 * 1)) / H = 0 := by simp
  have e4 : (H / 2 - 0 + H / (2 * 1)) / H = 1 := by field_simp
  rw [e1, e2, e3, e4]
  simp

/-- C15, amended: for every prior `Canvas.x`, `Canvas.y`, `Canvas.zoom`, the
commit (which returns when neither buffer dimension is `Infinity`) leaves
`Canvas.x = 0`, `Canvas.y = 0` and `Canvas.zoom = 1`; and in exact
arithmetic, when the canvas width and height are finite and not zero and
the committed bounds are finite, the commit repeated at once returns the
same plane bounds. -/
theorem commit_resets_transform (st : World)
    (hw : st.m.width ≠ pinf) (hh : st.m.height ≠ pinf) :
    ∃ st1, redrawAtScale st = .returned st1 ∧
      st1.Canvas.x = fin 0 ∧ st1.Canvas.y = fin 0 ∧ st1.Canvas.zoom = fin 1 ∧
      (∀ W H xl xr yl yr : ℚ, st.Canvas.width = fin W → st.Canvas.height = fin H →
        W ≠ 0 → H ≠ 0 →
        st1.m.xlBound = fin xl → st1.m.xrBound = fin xr →
        st1.m.ylBound = fin yl → st1.m.yrBound = fin yr →
        ∃ st2, redrawAtScale st1 = .returned st2 ∧
          st2.m.xlBound = st1.m.xlBound ∧ st2.m.xrBound = st1.m.xrBound ∧
          st2.m.ylBound = st1.m.ylBound ∧ st2.m.yrBound = st1.m.yrBound ∧
          st2.Canvas = st1.Canvas) := by
  obtain ⟨b, hb⟩ := redrawAtScale_returns st _ _ _ _ _ _ _ _ rfl rfl rfl rfl
    (scale_eq _ _ _ _ _) (scale_eq _ _ _ _ _) (scale_eq _ _ _ _ _) (scale_eq _ _ _ _ _) hw hh
  obtain ⟨st1, hst1⟩ : ∃ st1, redrawAtScale st = .returned st1 := ⟨_, hb⟩
  obtain ⟨hC, _, hw1, hh1, _⟩ := redrawAtScale_returned st st1 hst1
  refine ⟨st1, hst1, by rw [hC], by rw [hC], by rw [hC], ?_⟩
  intro W H xl xr yl yr hcw hch hW hH hxl hxr hyl hyr
  obtain ⟨g1, ⟨cw, ch, cz, cx, cy⟩, ⟨mw, mh, a1, a2, a3, a4, bf⟩, dbg, px, py⟩ := st1
  simp only [CanvasVars.mk.injEq] at hC
  obtain ⟨e1, e2, e3, e4, e5⟩ := hC
  simp only at hxl hxr hyl hyr hw1 hh1
  subst e3 e4 e5 hxl hxr hyl hyr
  rw [hcw] at e1
  rw [hch] at e2
  subst e1 e2
  obtain ⟨b2, hb2⟩ := redrawAtScale_identity g1 W H xl xr yl yr mw mh bf dbg px py hW hH
    (by rw [hw1]; exact hw) (by rw [hh1]; exact hh)
  exact ⟨_, hb2, rfl, rfl, rfl, rfl, rfl⟩

/-- C15, amended, on the canvas 800×600 with the initial bounds, zoom 2 and
pan `(10, -20)`: the commit returns with `x = 0`, `y = 0`, `zoom = 1`, and
in exact arithmetic the commit repeated at once returns the same bounds. -/
theorem commit_resets_transform_witness :
    ∃ st1 st2, redrawAtScale ⟨Globals.initial, ⟨fin 800, fin 600, fin 2, fin 10, fin (-20)⟩,
          ⟨fin 400, fin 300, fin (-5/2), fin 1, fin (-1), fin 1,
            createGraphics (fin 800) (fin 600)⟩, false, nan, nan⟩ = .returned st1 ∧
      st1.Canvas.x = fin 0 ∧ st1.Canvas.y = fin 0 ∧ st1.Canvas.zoom = fin 1 ∧
      redrawAtScale st1 = .returned st2 ∧
      st2.m.xlBound = st1.m.xlBound ∧ st2.m.xrBound = st1.m.xrBound ∧
      st2.m.ylBound = st1.m.ylBound ∧ st2.m.yrBound = st1.m.yrBound := by
  obtain ⟨st1, h, h1, h2, h3, hrep⟩ := commit_resets_transform
    ⟨Globals.initial, ⟨fin 800, fin 600, fin 2, fin 10, fin (-20)⟩,
      ⟨fin 400, fin 300, fin (-5/2), fin 1, fin (-1), fin 1,
        createGraphics (fin 800) (fin 600)⟩, false, nan, nan⟩ (by simp) (by simp)
  obtain ⟨b, hb⟩ := redrawAtScale_fin Globals.initial 800 600 2 10 (-20) (-5/2) 1 (-1) 1
    (fin 400) (fin 300) (createGraphics (fin 800) (fin 600)) false nan nan
    (by norm_num) (by norm_num) (by norm_num) (by simp) (by simp)
  have e := Outcome.returned.inj (h.symm.trans hb)
  obtain ⟨st2, hs2, g1, g2, g3, g4, _⟩ := hrep 800 600 _ _ _ _ rfl rfl
    (by norm_num) (by norm_num) (by rw [e]) (by rw [e]) (by rw [e]) (by rw [e])
  exact ⟨st1, st2, h, h1, h2, h3, hs2, g1, g2, g3, g4⟩

/-! ## Zoom commits compose -/

/-- C20: for `z1, z2 > 0`, a canvas of positive size and finite prior
bounds, the commit of zoom `z1` with no pan followed by the commit of zoom
`z2` with no pan returns the plane bounds of the single commit of zoom
`z1 · z2` with no pan (exact arithmetic); when `z1 · z2 = 1` these are the
original bounds. -/
theorem zoom_commits_compose (g : Globals) (W H z1 z2 xl xr yl yr : ℚ)
    (mw mh : JSNum) (buff : Graphics) (dbg : Bool) (cx cy : JSNum)
    (hz1 : 0 < z1) (hz2 : 0 < z2) (hW : 0 < W) (hH : 0 < H)
    (hw : mw ≠ pinf) (hh : mh ≠ pinf) :
    ∃ xl1 xr1 yl1 yr1 xl2 xr2 yl2 yr2 : ℚ, ∃ b1 b2 b3,
      redrawAtScale ⟨g, ⟨fin W, fin H, fin z1, fin 0, fin 0⟩,
          ⟨mw, mh, fin xl, fin xr, fin yl, fin yr, buff⟩, dbg, cx, cy⟩
        = .returned ⟨g, ⟨fin W, fin H, fin 1, fin 0, fin 0⟩,
          ⟨mw, mh, fin xl1, fin xr1, fin yl1, fin yr1, b1⟩, dbg, cx, cy⟩ ∧
      redrawAtScale ⟨g, ⟨fin W, fin H, fin z2, fin 0, fin 0⟩,
          ⟨mw, mh, fin xl1, fin xr1, fin yl1, fin yr1, b1⟩, dbg, cx, cy⟩
        = .returned ⟨g, ⟨fin W, fin H, fin 1, fin 0, fin 0⟩,
          ⟨mw, mh, fin xl2, fin xr2, fin yl2, fin yr2, b2⟩, dbg, cx, cy⟩ ∧
      redrawAtScale ⟨g, ⟨fin W, fin H, fin (z1 * z2), fin 0, fin 0⟩,
          ⟨mw, mh, fin xl, fin xr, fin yl, fin yr, buff⟩, dbg, cx, cy⟩
        = .returned ⟨g, ⟨fin W, fin H, fin 1, fin 0, fin 0⟩,
          ⟨mw, mh, fin xl2, fin xr2, fin yl2, fin yr2, b3⟩, dbg, cx, cy⟩ ∧
      (z1 * z2 = 1 → xl2 = xl ∧ xr2 = xr ∧ yl2 = yl ∧ yr2 = yr) := by
  have hz10 := hz1.ne.symm
  have hz20 := hz2.ne.symm
  have hW0 := hW.ne.symm
  have hH0 := hH.ne.symm
  obtain ⟨b1, hb1⟩ := redrawAtScale_fin g W H z1 0 0 xl xr yl yr mw mh buff dbg cx cy
    hz10 hW0 hH0 hw hh
  obtain ⟨b2, hb2⟩ := redrawAtScale_fin g W H z2 0 0
    (xl + (xr - xl) * (1 / 2 - 1 / (2 * z1))) (xl + (xr - xl) * (1 / 2 + 1 / (2 * z1)))
    (yl + (yr - yl) * (1 / 2 - 1 / (2 * z1))) (yl + (yr - yl) * (1 / 2 + 1 / (2 * z1)))
    mw mh b1 dbg cx cy hz20 hW0 hH0 hw hh
  obtain ⟨b3, hb3⟩ := redrawAtScale_fin g W H (z1 * z2) 0 0 xl xr yl yr mw mh buff dbg cx cy
    (mul_ne_zero hz10 hz20) hW0 hH0 hw hh
  have lo : ∀ S z : ℚ, S ≠ 0 → z ≠ 0 → (S / 2 - 0 - S / (2 * z)) / S = 1 / 2 - 1 / (2 * z) := by
    intro S z hS hz
    field_simp
    ring
  have hi : ∀ S z : ℚ, S ≠ 0 → z ≠ 0 → (S / 2 - 0 + S / (2 * z)) / S = 1 / 2 + 1 / (2 * z) := by
    intro S z hS hz
    field_simp
    ring
  have hz12 : z1 * z2 ≠ 0 := mul_ne_zero hz10 hz20
  rw [lo W z1 hW0 hz10, hi W z1 hW0 hz10, lo H z1 hH0 hz10, hi H z1 hH0 hz10] at hb1
  rw [lo W z2 hW0 hz20, hi W z2 hW0 hz20, lo H z2 hH0 hz20, hi H z2 hH0 hz20] at hb2
  rw [lo W _ hW0 hz12, hi W _ hW0 hz12, lo H _ hH0 hz12, hi H _ hH0 hz12] at hb3
  refine ⟨_, _, _, _, _, _, _, _, b1, b2, b3, hb1, ?_, hb3, ?_⟩
  · rw [hb2]
    simp only [Outcome.returned.injEq, World.mk.injEq, Mandelbrot.mk.injEq, JSNum.fin.injEq,
      true_and, and_true]
    refine ⟨?_, ?_, ?_, ?_⟩ <;> field_simp <;> ring
  · intro h1
    rw [h1]
    norm_num

/-- C20 on the canvas 800×600 with the initial bounds: the commit of zoom 2
and then of zoom `1/2` returns the original bounds `[-5/2, 1] × [-1, 1]`. -/
theorem zoom_commits_compose_witness :
    ∃ xl1 xr1 yl1 yr1 : ℚ, ∃ b1 b2,
      redrawAtScale ⟨Globals.initial, ⟨fin 800, fin 600, fin 2, fin 0, fin 0⟩,
          ⟨fin 400, fin 300, fin (-5/2), fin 1, fin (-1), fin 1,
            createGraphics (fin 800) (fin 600)⟩, false, nan, nan⟩
        = .returned ⟨Globals.initial, ⟨fin 800, fin 600, fin 1, fin 0, fin 0⟩,
          ⟨fin 400, fin 300, fin xl1, fin xr1, fin yl1, fin yr1, b1⟩, false, nan, nan⟩ ∧
      redrawAtScale ⟨Globals.initial, ⟨fin 800, fin 600, fin (1/2), fin 0, fin 0⟩,
          ⟨fin 400, fin 300, fin xl1, fin xr1, fin yl1, fin yr1, b1⟩, false, nan, nan⟩
        = .returned ⟨Globals.initial, ⟨fin 800, fin 600, fin 1, fin 0, fin 0⟩,
          ⟨fin 400, fin 300, fin (-5/2), fin 1, fin (-1), fin 1, b2⟩, false, nan, nan⟩ := by
  obtain ⟨xl1, xr1, yl1, yr1, xl2, xr2, yl2, yr2, b1, b2, _, h1, h2, _, h4⟩ :=
    zoom_commits_compose Globals.initial 800 600 2 (1/2) (-5/2) 1 (-1) 1 (fin 400) (fin 300)
      (createGraphics (fin 800) (fin 600)) false nan nan
      (by norm_num) (by norm_num) (by norm_num) (by norm_num) (by simp) (by simp)
  obtain ⟨e1, e2, e3, e4⟩ := h4 (by norm_num)
  subst e1 e2 e3 e4
  exact ⟨xl1, xr1, yl1, yr1, b1, b2, h1, h2⟩

/-! ## The commit captures what is on screen -/

theorem JSNum.neg_fin (a : ℚ) : -fin a = fin (-a) := rfl

/-- The four screen borders of `redrawAtScale()` are the ones the new
bounds are rescaled from. -/
theorem redrawAtScale_borders (st : World) (hw : st.m.width ≠ pinf) (hh : st.m.height ≠ pinf) :
    ∃ st1, redrawAtScale st = .returned st1 ∧
      _scale (screenLeftBorder st.Canvas) (fin 0) st.Canvas.width st.m.xlBound st.m.xrBound
        = .returned st1.m.xlBound ∧
      _scale (screenRightBorder st.Canvas) (fin 0) st.Canvas.width st.m.xlBound st.m.xrBound
        = .returned st1.m.xrBound ∧
      _scale (screenTopBorder st.Canvas) (fin 0) st.Canvas.height st.m.ylBound st.m.yrBound
        = .returned st1.m.ylBound ∧
      _scale (screenBottomBorder st.Canvas) (fin 0) st.Canvas.height st.m.ylBound st.m.yrBound
        = .returned st1.m.yrBound := by
  obtain ⟨b, hb⟩ := redrawAtScale_returns st
    (screenLeftBorder st.Canvas) (screenRightBorder st.Canvas)
    (screenTopBorder st.Canvas) (screenBottomBorder st.Canvas) _ _ _ _ rfl rfl rfl rfl
    (scale_eq _ _ _ _ _) (scale_eq _ _ _ _ _) (scale_eq _ _ _ _ _) (scale_eq _ _ _ _ _) hw hh
  exact ⟨_, hb, scale_eq _ _ _ _ _, scale_eq _ _ _ _ _, scale_eq _ _ _ _ _, scale_eq _ _ _ _ _⟩

/-- The screen borders on finite data with a non-zero zoom. -/
theorem screen_borders_fin (W H zoom panX panY : ℚ) (hz : zoom ≠ 0) :
    screenLeftBorder ⟨fin W, fin H, fin zoom, fin panX, fin panY⟩
      = fin (W / 2 - panX - W / (2 * zoom)) ∧
    screenRightBorder ⟨fin W, fin H, fin zoom, fin panX, fin panY⟩
      = fin (W / 2 - panX + W / (2 * zoom)) ∧
    screenTopBorder ⟨fin W, fin H, fin zoom, fin panX, fin panY⟩
      = fin (H / 2 - panY - H / (2 * zoom)) ∧
    screenBottomBorder ⟨fin W, fin H, fin zoom, fin panX, fin panY⟩
      = fin (H / 2 - panY + H / (2 * zoom)) := by
  have h2 : (2 : ℚ) ≠ 0 := two_ne_zero
  refine ⟨?_, ?_, ?_, ?_⟩
  · simp [screenLeftBorder, fin_div, hz, h2]
    ring
  · simp [screenRightBorder, fin_div, hz, h2]
    ring
  · simp [screenTopBorder, fin_div, hz, h2]
    ring
  · simp [screenBottomBorder, fin_div, hz, h2]
    ring

/-- The transform of `draw()` on finite data: the point `(px, py)` of the
cached image lands at `W/2 + zoom · (px + panX - W/2)` and
`H/2 + zoom · (py + panY - H/2)`. -/
theorem drawTransform_fin (W H zoom panX panY px py : ℚ) :
    (drawTransform ⟨fin W, fin H, fin zoom, fin panX, fin panY⟩).apply (fin px) (fin py)
      = (fin (W / 2 + zoom * (px + panX - W / 2)), fin (H / 2 + zoom * (py + panY - H / 2))) := by
  have h2 : (2 : ℚ) ≠ 0 := two_ne_zero
  simp only [drawTransform, handleZoom, translate, scale, Transform.identity, Transform.apply,
    fin_div _ _ h2, neg_fin, fin_mul, fin_add, Prod.mk.injEq, JSNum.fin.injEq]
  constructor <;> ring

/-- On the engine the constructor builds (`width = W / d`, `height = H / d`
for `scaleFactor = d`), the inner loop of `buffer()` paints the cell
`(x, y)` at the image point `(x · d, y · d)`, with side `d`, in the colour of
the escape count of the plane point that `_scale(·, 0, W, xl, xr)` and
`_scale(·, 0, H, yl, yr)` give for that image point. -/
theorem bufferCell_image_point (g : Globals) (W H d : ℚ) (xl xr yl yr : JSNum)
    (buff : Graphics) (hg : g.scaleFactor = fin d) (hd : d ≠ 0) (hW : W ≠ 0) (hH : H ≠ 0)
    (x y : ℕ) (b : Graphics) :
    ∃ (r : RectWrite) (x0 y0 : JSNum),
      bufferCell g ⟨fin (W / d), fin (H / d), xl, xr, yl, yr, buff⟩ x y b
        = .returned { b with rects := b.rects ++ [r] } ∧
      r.x = fin (x * d) ∧ r.y = fin (y * d) ∧ r.w = fin d ∧ r.h = fin d ∧
      _scale r.x (fin 0) (fin W) xl xr = .returned x0 ∧
      _scale r.y (fin 0) (fin H) yl yr = .returned y0 ∧
      _calculatePixel g ⟨fin (W / d), fin (H / d), xl, xr, yl, yr, buff⟩ (fin x) (fin y)
        = .returned (finalLoopState g x0 y0).iteration ∧
      _setColor g (finalLoopState g x0 y0).iteration = .returned r.fill := by
  have hWd : W / d - 0 ≠ 0 := by
    rw [sub_zero]
    exact div_ne_zero hW hd
  have hHd : H / d - 0 ≠ 0 := by
    rw [sub_zero]
    exact div_ne_zero hH hd
  have hW0 : W - 0 ≠ 0 := by rw [sub_zero]; exact hW
  have hH0 : H - 0 ≠ 0 := by rw [sub_zero]; exact hH
  have fx : (fin (x * d) - fin 0) / (fin W - fin 0)
      = (fin (x : ℚ) - fin 0) / (fin (W / d) - fin 0) := by
    rw [fin_sub, fin_sub, fin_sub, fin_sub, fin_div _ _ hW0, fin_div _ _ hWd]
    congr 1
    field_simp
  have fy : (fin (y * d) - fin 0) / (fin H - fin 0)
      = (fin (y : ℚ) - fin 0) / (fin (H / d) - fin 0) := by
    rw [fin_sub, fin_sub, fin_sub, fin_sub, fin_div _ _ hH0, fin_div _ _ hHd]
    congr 1
    field_simp
  have hx : fin (x : ℚ) * g.scaleFactor = fin (x * d) := by rw [hg]; rfl
  have hy : fin (y : ℚ) * g.scaleFactor = fin (y * d) := by rw [hg]; rfl
  refine ⟨⟨x, y, fin x * g.scaleFactor, fin y * g.scaleFactor, g.scaleFactor, g.scaleFactor,
      if (finalLoopState g
          ((xr - xl) * ((fin (x : ℚ) - fin 0) / (fin (W / d) - fin 0)) + xl)
          ((yr - yl) * ((fin (y : ℚ) - fin 0) / (fin (H / d) - fin 0)) + yl)).iteration
            = g.iterations
        then some (colorGray 0)
        else colors ((finalLoopState g
          ((xr - xl) * ((fin (x : ℚ) - fin 0) / (fin (W / d) - fin 0)) + xl)
          ((yr - yl) * ((fin (y : ℚ) - fin 0) / (fin (H / d) - fin 0)) + yl)).iteration % 16)⟩,
    (xr - xl) * ((fin (x : ℚ) - fin 0) / (fin (W / d) - fin 0)) + xl,
    (yr - yl) * ((fin (y : ℚ) - fin 0) / (fin (H / d) - fin 0)) + yl,
    rfl, hx, hy, hg, hg, ?_, ?_, rfl, rfl⟩
  · show _scale (fin (x : ℚ) * g.scaleFactor) (fin 0) (fin W) xl xr = _
    rw [hx, scale_eq, fx]
  · show _scale (fin (y : ℚ) * g.scaleFactor) (fin 0) (fin H) yl yr = _
    rw [hy, scale_eq, fy]

/-- C19: for every zoom > 0 and pan on a finite canvas of non-zero size, with
the engine the constructor builds for a `scaleFactor` that is not zero:
under the transform of `draw()` the point of the cached image that lands on
the screen edge `x = 0` is `screenLeftBorder`, on `x = Canvas.width` is
`screenRightBorder`, on `y = 0` is `screenTopBorder` and on
`y = Canvas.height` is `screenBottomBorder`, and no other; the cached image
shows at each image point it paints the plane point that
`_scale(·, 0, Canvas.width, xl, xr)` and `_scale(·, 0, Canvas.height, yl, yr)`
give for it; and the commit returns as new bounds the values of these same
two maps at the four borders. -/
theorem commit_captures_screen (g : Globals) (W H d zoom panX panY : ℚ)
    (xl xr yl yr : JSNum) (buff : Graphics) (dbg : Bool) (cx cy : JSNum)
    (hg : g.scaleFactor = fin d) (hd : d ≠ 0) (hW : W ≠ 0) (hH : H ≠ 0) (hz : 0 < zoom) :
    ∃ L R T B : ℚ,
      screenLeftBorder ⟨fin W, fin H, fin zoom, fin panX, fin panY⟩ = fin L ∧
      screenRightBorder ⟨fin W, fin H, fin zoom, fin panX, fin panY⟩ = fin R ∧
      screenTopBorder ⟨fin W, fin H, fin zoom, fin panX, fin panY⟩ = fin T ∧
      screenBottomBorder ⟨fin W, fin H, fin zoom, fin panX, fin panY⟩ = fin B ∧
      (∀ px py : ℚ, ∃ sx sy : ℚ,
        (drawTransform ⟨fin W, fin H, fin zoom, fin panX, fin panY⟩).apply (fin px) (fin py)
          = (fin sx, fin sy) ∧
        (sx = 0 ↔ px = L) ∧ (sx = W ↔ px = R) ∧ (sy = 0 ↔ py = T) ∧ (sy = H ↔ py = B)) ∧
      (∀ (x y : ℕ) (b : Graphics), ∃ (r : RectWrite) (x0 y0 : JSNum),
        bufferCell g ⟨fin (W / d), fin (H / d), xl, xr, yl, yr, buff⟩ x y b
          = .returned { b with rects := b.rects ++ [r] } ∧
        r.x = fin (x * d) ∧ r.y = fin (y * d) ∧ r.w = fin d ∧ r.h = fin d ∧
        _scale r.x (fin 0) (fin W) xl xr = .returned x0 ∧
        _scale r.y (fin 0) (fin H) yl yr = .returned y0 ∧
        _calculatePixel g ⟨fin (W / d), fin (H / d), xl, xr, yl, yr, buff⟩ (fin x) (fin y)
          = .returned (finalLoopState g x0 y0).iteration ∧
        _setColor g (finalLoopState g x0 y0).iteration = .returned r.fill) ∧
      ∃ st1, redrawAtScale ⟨g, ⟨fin W, fin H, fin zoom, fin panX, fin panY⟩,
            ⟨fin (W / d), fin (H / d), xl, xr, yl, yr, buff⟩, dbg, cx, cy⟩ = .returned st1 ∧
        _scale (fin L) (fin 0) (fin W) xl xr = .returned st1.m.xlBound ∧
        _scale (fin R) (fin 0) (fin W) xl xr = .returned st1.m.xrBound ∧
        _scale (fin T) (fin 0) (fin H) yl yr = .returned st1.m.ylBound ∧
        _scale (fin B) (fin 0) (fin H) yl yr = .returned st1.m.yrBound := by
  have hz0 : zoom ≠ 0 := hz.ne.symm
  obtain ⟨hL, hR, hT, hB⟩ := screen_borders_fin W H zoom panX panY hz0
  refine ⟨_, _, _, _, hL, hR, hT, hB, ?_,
    fun x y b => bufferCell_image_point g W H d xl xr yl yr buff hg hd hW hH x y b, ?_⟩
  · intro px py
    have key : ∀ S p q e : ℚ, (S / 2 + zoom * (q + p - S / 2) = e ↔
        q = S / 2 - p + (e - S / 2) / zoom) := by
      intro S p q e
      constructor
      · intro h
        field_simp
        linarith
      · intro h
        rw [h]
        field_simp
        ring
    refine ⟨_, _, drawTransform_fin W H zoom panX panY px py, ?_, ?_, ?_, ?_⟩
    · rw [key W panX px 0]
      constructor <;> intro h <;> rw [h] <;> field_simp <;> ring
    · rw [key W panX px W]
      constructor <;> intro h <;> rw [h] <;> field_simp <;> ring
    · rw [key H panY py 0]
      constructor <;> intro h <;> rw [h] <;> field_simp <;> ring
    · rw [key H panY py H]
      constructor <;> intro h <;> rw [h] <;> field_simp <;> ring
  · obtain ⟨st1, h, h1, h2, h3, h4⟩ := redrawAtScale_borders
      ⟨g, ⟨fin W, fin H, fin zoom, fin panX, fin panY⟩,
        ⟨fin (W / d), fin (H / d), xl, xr, yl, yr, buff⟩, dbg, cx, cy⟩
      (fun h => JSNum.noConfusion h) (fun h => JSNum.noConfusion h)
    rw [hL] at h1
    rw [hR] at h2
    rw [hT] at h3
    rw [hB] at h4
    exact ⟨st1, h, h1, h2, h3, h4⟩

/-- C19 on the canvas 800×600 with `scaleFactor = 2`, zoom 2 and pan
`(10, -20)`: the cell `(95, 85)` is painted at the image point `(190, 170)`,
which lands on the screen corner `(0, 0)`; it shows the plane point
`(x0, y0)`, and the commit returns `xlBound = x0` and `ylBound = y0`. -/
theorem commit_captures_screen_witness :
    ∃ (r : RectWrite) (x0 y0 : JSNum) (st1 : World),
      bufferCell Globals.initial
          ⟨fin (800 / 2), fin (600 / 2), fin (-5/2), fin 1, fin (-1), fin 1,
            createGraphics (fin 800) (fin 600)⟩ 95 85 (createGraphics (fin 800) (fin 600))
        = .returned { createGraphics (fin 800) (fin 600) with
            rects := (createGraphics (fin 800) (fin 600)).rects ++ [r] } ∧
      r.x = fin 190 ∧ r.y = fin 170 ∧
      (drawTransform ⟨fin 800, fin 600, fin 2, fin 10, fin (-20)⟩).apply (fin 190) (fin 170)
        = (fin 0, fin 0) ∧
      _setColor Globals.initial (finalLoopState Globals.initial x0 y0).iteration
        = .returned r.fill ∧
      redrawAtScale ⟨Globals.initial, ⟨fin 800, fin 600, fin 2, fin 10, fin (-20)⟩,
          ⟨fin (800 / 2), fin (600 / 2), fin (-5/2), fin 1, fin (-1), fin 1,
            createGraphics (fin 800) (fin 600)⟩, false, nan, nan⟩ = .returned st1 ∧
      st1.m.xlBound = x0 ∧ st1.m.ylBound = y0 := by
  obtain ⟨L, R, T, B, hL, hR, hT, hB, hpt, hcell, st1, hst, hxl, _, hyl, _⟩ :=
    commit_captures_screen Globals.initial 800 600 2 2 10 (-20)
      (fin (-5/2)) (fin 1) (fin (-1)) (fin 1) (createGraphics (fin 800) (fin 600)) false nan nan
      rfl (by norm_num) (by norm_num) (by norm_num) (by norm_num)
  obtain ⟨eL, _, eT, _⟩ := screen_borders_fin 800 600 2 10 (-20) (by norm_num)
  have e1 : L = 190 := by
    have := hL.symm.trans eL
    simp only [JSNum.fin.injEq] at this
    rw [this]
    norm_num
  have e3 : T = 170 := by
    have := hT.symm.trans eT
    simp only [JSNum.fin.injEq] at this
    rw [this]
    norm_num
  subst e1 e3
  obtain ⟨r, x0, y0, hr, hrx, hry, _, _, hx0, hy0, _, hfill⟩ :=
    hcell 95 85 (createGraphics (fin 800) (fin 600))
  have hrx2 : r.x = fin 190 := by
    rw [hrx]
    norm_num
  have hry2 : r.y = fin 170 := by
    rw [hry]
    norm_num
  rw [hrx2] at hx0
  rw [hry2] at hy0
  obtain ⟨sx, sy, h, h1, _, h3, _⟩ := hpt 190 170
  refine ⟨r, x0, y0, st1, hr, hrx2, hry2, ?_, hfill, hst,
    Outcome.returned.inj (hxl.symm.trans hx0), Outcome.returned.inj (hyl.symm.trans hy0)⟩
  rw [h, h1.mpr rfl, h3.mpr rfl]

/-! ## The grid filled by `buffer()` -/

/-- One pass of the inner loop of `buffer()` appends one rectangle, for the
cell of the loop variables. -/
theorem bufferCell_eq (g : Globals) (m : Mandelbrot) (x y : ℕ) (buff : Graphics) :
    ∃ r : RectWrite, bufferCell g m x y buff
        = .returned { buff with rects := buff.rects ++ [r] } ∧ r.cellX = x ∧ r.cellY = y :=
  ⟨_, rfl, rfl, rfl⟩

/-- The inner loop of `buffer()` over the rows `ys` of the column `x`. -/
theorem column_fold (g : Globals) (m : Mandelbrot) (x : ℕ) (ys : List ℕ) (b : Graphics) :
    ∃ cs : List RectWrite,
      ys.foldlM (fun s y => bufferCell g m x y s) b
        = .returned { b with rects := b.rects ++ cs } ∧
      cs.map (fun r => (r.cellX, r.cellY)) = ys.map (fun y => (x, y)) := by
  induction ys generalizing b with
  | nil => exact ⟨[], by simp, rfl⟩
  | cons y ys ih =>
    obtain ⟨r, hr, hx, hy⟩ := bufferCell_eq g m x y b
    obtain ⟨cs, hcs, hmap⟩ := ih { b with rects := b.rects ++ [r] }
    refine ⟨r :: cs, ?_, ?_⟩
    · rw [List.foldlM_cons, hr, Outcome.returned_bind, hcs]
      simp
    · simp [hmap, hx, hy]

/-- The outer loop of `buffer()` over the columns `xs`, each with the rows `ys`. -/
theorem grid_fold (F : ℕ → Graphics → Outcome Graphics) (ys : List ℕ)
    (hF : ∀ x b, ∃ cs : List RectWrite, F x b = .returned { b with rects := b.rects ++ cs } ∧
      cs.map (fun r => (r.cellX, r.cellY)) = ys.map (fun y => (x, y)))
    (xs : List ℕ) (b : Graphics) :
    ∃ cs : List RectWrite,
      xs.foldlM (fun s x => F x s) b = .returned { b with rects := b.rects ++ cs } ∧
      cs.map (fun r => (r.cellX, r.cellY)) = xs.flatMap (fun x => ys.map (fun y => (x, y))) := by
  induction xs generalizing b with
  | nil => exact ⟨[], by simp, rfl⟩
  | cons x xs ih =>
    obtain ⟨c1, h1, hm1⟩ := hF x b
    obtain ⟨cs, hcs, hmap⟩ := ih { b with rects := b.rects ++ c1 }
    refine ⟨c1 ++ cs, ?_, ?_⟩
    · rw [List.foldlM_cons, h1, Outcome.returned_bind, hcs]
      simp
    · simp [hmap, hm1]

/-- With finite buffer dimensions `w`, `h`, the call `buffer()` returns, and
the cells it writes are the pairs `(x, y)` with `x < ⌈w⌉` and `y < ⌈h⌉`,
column by column. -/
theorem buffer_grid (g : Globals) (m : Mandelbrot) (w h : ℚ)
    (hw : m.width = fin w) (hh : m.height = fin h) :
    ∃ m1, buffer g m = .returned m1 ∧
      m1.buff.rects.map (fun r => (r.cellX, r.cellY))
        = (List.range ⌈w⌉.toNat).flatMap
            (fun x => (List.range ⌈h⌉.toNat).map (fun y => (x, y))) := by
  obtain ⟨cs, hcs, hmap⟩ := grid_fold
    (fun x b => forLoop m.height (fun y b => bufferCell g m x y b) b)
    (List.range ⌈h⌉.toNat)
    (fun x b => by
      rw [hh]
      exact column_fold g m x (List.range ⌈h⌉.toNat) b)
    (List.range ⌈w⌉.toNat)
    (createGraphics (m.width * g.scaleFactor) (m.height * g.scaleFactor))
  have hfor : forLoop m.width
      (fun x b => forLoop m.height (fun y b => bufferCell g m x y b) b)
      (createGraphics (m.width * g.scaleFactor) (m.height * g.scaleFactor))
        = .returned { createGraphics (m.width * g.scaleFactor) (m.height * g.scaleFactor) with
            rects := (createGraphics (m.width * g.scaleFactor)
              (m.height * g.scaleFactor)).rects ++ cs } := by
    rw [← hcs]
    have gen : ∀ bd : JSNum, bd = fin w →
        forLoop bd (fun x b => forLoop m.height (fun y b => bufferCell g m x y b) b)
          (createGraphics (m.width * g.scaleFactor) (m.height * g.scaleFactor))
        = (List.range ⌈w⌉.toNat).foldlM
            (fun s x => forLoop m.height (fun y b => bufferCell g m x y b) s)
            (createGraphics (m.width * g.scaleFactor) (m.height * g.scaleFactor)) := by
      intro bd hbd
      subst hbd
      rfl
    exact gen m.width hw
  have hbuf : buffer g m = (forLoop m.width
      (fun x b => forLoop m.height (fun y b => bufferCell g m x y b) b)
      (createGraphics (m.width * g.scaleFactor) (m.height * g.scaleFactor)) >>= fun buff =>
        Outcome.returned { m with buff := buff }) := rfl
  refine ⟨_, by rw [hbuf, hfor]; rfl, ?_⟩
  simpa [createGraphics] using hmap

/-- The grid of `cols` columns by `rows` rows has `cols` distinct column
indices when it has a row, and `rows` distinct row indices when it has a
column. -/
theorem grid_counts (cols rows : ℕ) :
    (0 < rows → (((List.range cols).flatMap
        (fun x => (List.range rows).map (fun y => (x, y)))).map Prod.fst).toFinset.card = cols) ∧
    (0 < cols → (((List.range cols).flatMap
        (fun x => (List.range rows).map (fun y => (x, y)))).map Prod.snd).toFinset.card = rows) := by
  constructor
  · intro hr
    have : (((List.range cols).flatMap
        (fun x => (List.range rows).map (fun y => (x, y)))).map Prod.fst).toFinset
        = Finset.range cols := by
      ext a
      simp only [List.mem_toFinset, List.mem_map, List.mem_flatMap, List.mem_range,
        Finset.mem_range, Prod.exists]
      constructor
      · rintro ⟨x, y, ⟨x1, hx1, y1, _, he⟩, rfl⟩
        cases he
        exact hx1
      · intro ha
        exact ⟨a, 0, ⟨a, ha, 0, hr, rfl⟩, rfl⟩
    rw [this, Finset.card_range]
  · intro hc
    have : (((List.range cols).flatMap
        (fun x => (List.range rows).map (fun y => (x, y)))).map Prod.snd).toFinset
        = Finset.range rows := by
      ext a
      simp only [List.mem_toFinset, List.mem_map, List.mem_flatMap, List.mem_range,
        Finset.mem_range, Prod.exists]
      constructor
      · rintro ⟨x, y, ⟨x1, _, y1, hy1, he⟩, rfl⟩
        cases he
        exact hy1
      · intro ha
        exact ⟨0, a, ⟨0, hc, a, ha, rfl⟩, rfl⟩
    rw [this, Finset.card_range]

/-- C13, as stated, fails when `scaleFactor` does not divide the canvas size:
for the canvas 3×2 and `scaleFactor = 2` the buffer is `3/2` wide and `1`
high, and `buffer()` writes the cells `(0, 0)` and `(1, 0)`: two distinct
`x` values, not `3/2`. -/
theorem buffer_odd_width :
    ∃ m1, buffer Globals.initial
        (Mandelbrot.constructor Globals.initial (fin 3) (fin 2)
          (fin (-5/2)) (fin 1) (fin (-1)) (fin 1)) = .returned m1 ∧
      m1.buff.rects.map (fun r => (r.cellX, r.cellY)) = [(0, 0), (1, 0)] ∧
      ((m1.buff.rects.map (fun r => (r.cellX, r.cellY))).map Prod.fst).toFinset.card = 2 ∧
      ((2 : ℕ) : ℚ) ≠ 3 / 2 := by
  obtain ⟨hw, hh⟩ := constructor_dimensions Globals.initial 3 2 2
    (fin (-5/2)) (fin 1) (fin (-1)) (fin 1) rfl two_ne_zero
  obtain ⟨m1, hm1, hcells⟩ := buffer_grid Globals.initial _ _ _ hw hh
  have c1 : ⌈(3 / 2 : ℚ)⌉.toNat = 2 := by
    have : ⌈(3 / 2 : ℚ)⌉ = 2 := by
      rw [Int.ceil_eq_iff]
      norm_num
    rw [this]
    rfl
  have c2 : ⌈(2 / 2 : ℚ)⌉.toNat = 1 := by
    have : ⌈(2 / 2 : ℚ)⌉ = 1 := by
      rw [Int.ceil_eq_iff]
      norm_num
    rw [this]
    rfl
  rw [c1, c2] at hcells
  have hlist : ((List.range 2).flatMap fun x => (List.range 1).map fun y => (x, y))
      = [(0, 0), (1, 0)] := by decide
  rw [hlist] at hcells
  refine ⟨m1, hm1, hcells, ?_, by norm_num⟩
  rw [hcells]
  decide

/-- C13, amended: for every finite canvas width `W`, height `H` and
`scaleFactor = d ≠ 0` (so for every `d ≥ 1`), `buffer()` on the engine the
constructor builds returns, and the cells it writes are the pairs `(x, y)`
with `x < ⌈W/d⌉` and `y < ⌈H/d⌉`: a grid of `⌈W/d⌉` columns by `⌈H/d⌉`
rows, with `⌈W/d⌉` distinct `x` values when there is a row and `⌈H/d⌉`
distinct `y` values when there is a column; the numbers are `W/d` and `H/d`
when `d` divides `W` and `H`. -/
theorem buffer_fills_grid (g : Globals) (W H d : ℚ) (xl xr yl yr : JSNum)
    (hg : g.scaleFactor = fin d) (hd : d ≠ 0) :
    ∃ m1, buffer g (Mandelbrot.constructor g (fin W) (fin H) xl xr yl yr) = .returned m1 ∧
      m1.buff.rects.map (fun r => (r.cellX, r.cellY))
        = (List.range ⌈W / d⌉.toNat).flatMap
            (fun x => (List.range ⌈H / d⌉.toNat).map (fun y => (x, y))) ∧
      (0 < ⌈H / d⌉.toNat →
        ((m1.buff.rects.map (fun r => (r.cellX, r.cellY))).map Prod.fst).toFinset.card
          = ⌈W / d⌉.toNat) ∧
      (0 < ⌈W / d⌉.toNat →
        ((m1.buff.rects.map (fun r => (r.cellX, r.cellY))).map Prod.snd).toFinset.card
          = ⌈H / d⌉.toNat) ∧
      (∀ k : ℕ, W = d * k → ⌈W / d⌉.toNat = k) ∧
      (∀ k : ℕ, H = d * k → ⌈H / d⌉.toNat = k) := by
  obtain ⟨hw, hh⟩ := constructor_dimensions g W H d xl xr yl yr hg hd
  obtain ⟨m1, hm1, hcells⟩ := buffer_grid g _ _ _ hw hh
  have hdiv : ∀ (S : ℚ) (k : ℕ), S = d * k → ⌈S / d⌉.toNat = k := by
    intro S k hS
    have : S / d = ((k : ℤ) : ℚ) := by
      rw [hS]
      field_simp
    rw [this, Int.ceil_intCast]
    rfl
  refine ⟨m1, hm1, hcells, ?_, ?_, hdiv W, hdiv H⟩
  · intro hr
    rw [hcells]
    exact (grid_counts _ _).1 hr
  · intro hc
    rw [hcells]
    exact (grid_counts _ _).2 hc

/-- C13, amended, on the canvas 800×600 with `scaleFactor = 2`: the grid has
400 distinct `x` values and 300 distinct `y` values. -/
theorem buffer_fills_grid_witness :
    ∃ m1, buffer Globals.initial
        (Mandelbrot.constructor Globals.initial (fin 800) (fin 600)
          (fin (-5/2)) (fin 1) (fin (-1)) (fin 1)) = .returned m1 ∧
      ((m1.buff.rects.map (fun r => (r.cellX, r.cellY))).map Prod.fst).toFinset.card = 400 ∧
      ((m1.buff.rects.map (fun r => (r.cellX, r.cellY))).map Prod.snd).toFinset.card = 300 := by
  obtain ⟨m1, hm1, _, hx, hy, hW, hH⟩ := buffer_fills_grid Globals.initial 800 600 2
    (fin (-5/2)) (fin 1) (fin (-1)) (fin 1) rfl two_ne_zero
  have eW := hW 400 (by norm_num)
  have eH := hH 300 (by norm_num)
  rw [eW, eH] at hx hy
  exact ⟨m1, hm1, hx (by norm_num), hy (by norm_num)⟩

/-! ## The loop body and the complex recurrence -/

/-- The reference power is the power of the complex numbers. -/
theorem cpow_complex (z : ℚ × ℚ) (n : ℕ) :
    (⟨((cpow z n).1 : ℝ), ((cpow z n).2 : ℝ)⟩ : ℂ) = (⟨(z.1 : ℝ), (z.2 : ℝ)⟩ : ℂ) ^ n := by
  induction n with
  | zero =>
    apply Complex.ext <;> simp [cpow]
  | succ n ih =>
    rw [pow_succ, ← ih]
    apply Complex.ext <;> simp [cpow, cmul] <;> ring

/-- One pass of the loop body on finite data: only the real part reads `power`. -/
theorem loopBody_fin (g : Globals) (x y x0 y0 : ℚ) (i : ℕ) :
    loopBody g (fin x0) (fin y0) ⟨fin x, fin y, i⟩
      = ⟨fin (x ^ g.power - y ^ g.power + x0), fin (2 * x * y + y0), i + 1⟩ := by
  simp [loopBody]

/-- The square plus `c`, in coordinates. -/
theorem square_add (z c : ℚ × ℚ) :
    cadd (cpow z 2) c = (z.1 ^ 2 - z.2 ^ 2 + c.1, 2 * z.1 * z.2 + c.2) := by
  simp only [cadd, cpow, cmul, Prod.mk.injEq]
  constructor <;> ring

/-- C17, as stated, fails for `power = 3`: from `z = 1 + i` and `c = 0` one
pass of the loop body gives `(x, y) = (0, 2)`, while `z³ + c = -2 + 2i`. -/
theorem loopBody_cube :
    loopBody ⟨fin 2, 100, 3⟩ (fin 0) (fin 0) ⟨fin 1, fin 1, 0⟩ = ⟨fin 0, fin 2, 1⟩ ∧
    cadd (cpow (1, 1) 3) (0, 0) = (-2, 2) := by
  constructor
  · rw [loopBody_fin]
    norm_num
  · simp only [cadd, cpow, cmul, Prod.mk.injEq]
    constructor <;> norm_num

/-- C17, amended: with `power = 2`, the value the source gives it, for every
`z = (x, y)` and `c = (x0, y0)` one pass of the loop body replaces `(x, y)`
by the real and imaginary parts of `z² + c` and adds one to the count. -/
theorem loopBody_square (g : Globals) (hp : g.power = 2) (x y x0 y0 : ℚ) (i : ℕ) :
    loopBody g (fin x0) (fin y0) ⟨fin x, fin y, i⟩
      = ⟨fin (cadd (cpow (x, y) 2) (x0, y0)).1, fin (cadd (cpow (x, y) 2) (x0, y0)).2, i + 1⟩ := by
  rw [loopBody_fin, hp, square_add]

/-- C17, amended, at `z = 1 + i`, `c = 1/4`: the pass gives `z² + c = 1/4 + 2i`. -/
theorem loopBody_square_witness :
    loopBody Globals.initial (fin (1/4)) (fin 0) ⟨fin 1, fin 1, 0⟩ = ⟨fin (1/4), fin 2, 1⟩ := by
  have h := loopBody_square Globals.initial rfl 1 1 (1/4) 0 0
  rw [h, square_add]
  norm_num

/-! ## The escape time -/

/-- The loop condition on finite data. -/
theorem loopGuard_fin (N : ℕ) (x y : ℚ) (i : ℕ) :
    loopGuard N ⟨fin x, fin y, i⟩ = (decide (x ^ 2 + y ^ 2 ≤ 4) && decide (i < N)) := by
  simp only [loopGuard, pow_fin, fin_add, le_fin]
  norm_num

/-- The reference escape time is at most `maxIterations`. -/
theorem refEscapeTime_le (c : ℚ × ℚ) (N : ℕ) : refEscapeTime c N ≤ N := by
  unfold refEscapeTime
  split_ifs with h
  · exact (Nat.find_spec h).1.le
  · exact le_refl N

/-- With `power = 2`, the loop started on the reference orbit at step `i`,
no earlier step having escaped, ends with the reference escape time. -/
theorem whileLoop_escape (g : Globals) (hp : g.power = 2) (x0 y0 : ℚ) (N : ℕ)
    (fuel i : ℕ) (hfuel : i + fuel = N)
    (hbefore : ∀ j, j < i → ¬ normSq (refOrbit (x0, y0) j) > 4) :
    (whileLoop g (fin x0) (fin y0) N fuel
        ⟨fin (refOrbit (x0, y0) i).1, fin (refOrbit (x0, y0) i).2, i⟩).iteration
      = refEscapeTime (x0, y0) N := by
  induction fuel generalizing i with
  | zero =>
    have hi : i = N := by omega
    subst hi
    have hno : ¬ ∃ n, n < i ∧ normSq (refOrbit (x0, y0) n) > 4 := by
      rintro ⟨n, hn, hesc⟩
      exact hbefore n hn hesc
    unfold refEscapeTime
    rw [dif_neg hno]
    rfl
  | succ fuel ih =>
    have hlt : i < N := by omega
    unfold whileLoop
    rw [loopGuard_fin]
    by_cases hin : (refOrbit (x0, y0) i).1 ^ 2 + (refOrbit (x0, y0) i).2 ^ 2 ≤ 4
    · have hg : (decide ((refOrbit (x0, y0) i).1 ^ 2 + (refOrbit (x0, y0) i).2 ^ 2 ≤ 4)
          && decide (i < N)) = true := by simp [hin, hlt]
      rw [if_pos hg, loopBody_fin, hp]
      have hstep : refOrbit (x0, y0) (i + 1)
          = ((refOrbit (x0, y0) i).1 ^ 2 - (refOrbit (x0, y0) i).2 ^ 2 + x0,
              2 * (refOrbit (x0, y0) i).1 * (refOrbit (x0, y0) i).2 + y0) := by
        show cadd (cpow (refOrbit (x0, y0) i) 2) (x0, y0) = _
        rw [square_add]
      have hnext := ih (i + 1) (by omega) (by
        intro j hj
        rcases Nat.lt_succ_iff_lt_or_eq.mp hj with h | h
        · exact hbefore j h
        · subst h
          exact not_lt.mpr hin)
      rw [hstep] at hnext
      exact hnext
    · have hg : ¬ ((decide ((refOrbit (x0, y0) i).1 ^ 2 + (refOrbit (x0, y0) i).2 ^ 2 ≤ 4)
          && decide (i < N)) = true) := by simp [hin]
      rw [if_neg hg]
      have hex : ∃ n, n < N ∧ normSq (refOrbit (x0, y0) n) > 4 :=
        ⟨i, hlt, not_le.mp hin⟩
      unfold refEscapeTime
      rw [dif_pos hex]
      symm
      rw [Nat.find_eq_iff]
      exact ⟨⟨hlt, not_le.mp hin⟩, fun n hn hesc => hbefore n hn hesc.2⟩

/-- C16, amended: in exact arithmetic, with `power = 2`, for every pixel that maps to a finite plane point
`c = (x0, y0)` and every value of `iterations`, `_calculatePixel` returns
the reference escape time of the orbit `z_0 = 0`, `z_{n+1} = z_n² + c`:
the least `n < iterations` with `|z_n|² > 4`, and `iterations` when there
is none; the result is at most `iterations`. -/
theorem calculatePixel_escape_time (g : Globals) (hp : g.power = 2) (m : Mandelbrot)
    (Px Py : JSNum) (x0 y0 : ℚ)
    (hx : _scale Px (fin 0) m.width m.xlBound m.xrBound = .returned (fin x0))
    (hy : _scale Py (fin 0) m.height m.ylBound m.yrBound = .returned (fin y0)) :
    _calculatePixel g m Px Py = .returned (refEscapeTime (x0, y0) g.iterations) ∧
    refEscapeTime (x0, y0) g.iterations ≤ g.iterations := by
  refine ⟨?_, refEscapeTime_le _ _⟩
  rw [calculatePixel_eq g m Px Py _ _ hx hy]
  have h := whileLoop_escape g hp x0 y0 g.iterations g.iterations 0 (by omega)
    (fun j hj => absurd hj (Nat.not_lt_zero j))
  unfold finalLoopState
  exact congrArg Outcome.returned h

/-- C16, amended, with the values of the source, on the window `[0, 4] × [0, 4]` and a
400×300 buffer: the pixel `(200, 150)` maps to `c = (2, 2)`, whose orbit
leaves the circle at `n = 1`, and the count is `1`. -/
theorem calculatePixel_escape_time_witness :
    _calculatePixel Globals.initial
        ⟨fin 400, fin 300, fin 0, fin 4, fin 0, fin 4, createGraphics (fin 800) (fin 600)⟩
        (fin 200) (fin 150) = .returned (refEscapeTime (2, 2) 100) ∧
    refEscapeTime (2, 2) 100 = 1 := by
  obtain ⟨h, _⟩ := calculatePixel_escape_time Globals.initial rfl
    ⟨fin 400, fin 300, fin 0, fin 4, fin 0, fin 4, createGraphics (fin 800) (fin 600)⟩
    (fin 200) (fin 150) 2 2
    (by rw [scale_fin _ _ _ _ _ (by norm_num)]; norm_num)
    (by rw [scale_fin _ _ _ _ _ (by norm_num)]; norm_num)
  refine ⟨h, ?_⟩
  have hex : ∃ n, n < 100 ∧ normSq (refOrbit ((2 : ℚ), (2 : ℚ)) n) > 4 := by
    refine ⟨1, by norm_num, ?_⟩
    norm_num [refOrbit, square_add, normSq]
  unfold refEscapeTime
  rw [dif_pos hex, Nat.find_eq_iff]
  refine ⟨⟨by norm_num, ?_⟩, ?_⟩
  · norm_num [refOrbit, square_add, normSq]
  · intro n hn
    interval_cases n
    norm_num [refOrbit, normSq]

/-! ## The rounded translations and the exact ones -/

theorem powR_id (x : JSNum) (n : ℕ) : powR id x n = pow x n := by
  induction n with
  | zero => rfl
  | succ n ih =>
    show id (x * powR id x n) = x * pow x n
    rw [ih]
    rfl

theorem scaleR_id (num minVal maxVal lRange rRange : JSNum) :
    _scaleR id num minVal maxVal lRange rRange = _scale num minVal maxVal lRange rRange := rfl

theorem loopGuardR_id (N : ℕ) (s : LoopState) : loopGuardR id N s = loopGuard N s := by
  simp only [loopGuardR, loopGuard, powR_id, id]

theorem loopBodyR_id (g : Globals) (x0 y0 : JSNum) (s : LoopState) :
    loopBodyR id g x0 y0 s = loopBody g x0 y0 s := by
  simp only [loopBodyR, loopBody, powR_id, id]

theorem whileLoopR_id (g : Globals) (x0 y0 : JSNum) (N fuel : ℕ) (s : LoopState) :
    whileLoopR id g x0 y0 N fuel s = whileLoop g x0 y0 N fuel s := by
  induction fuel generalizing s with
  | zero => rfl
  | succ fuel ih =>
    unfold whileLoopR whileLoop
    rw [loopGuardR_id, loopBodyR_id, ih]

/-- With no rounding the rounded `_calculatePixel` is the exact one. -/
theorem calculatePixelR_id (g : Globals) (m : Mandelbrot) (Px Py : JSNum) :
    _calculatePixelR id g m Px Py = _calculatePixel g m Px Py := by
  unfold _calculatePixelR _calculatePixel finalLoopStateR finalLoopState
  simp only [scaleR_id, whileLoopR_id]

theorem bufferR_id (g : Globals) (m : Mandelbrot) : bufferR id g m = buffer g m := by
  have hcell : ∀ x y b, bufferCellR id g m x y b = bufferCell g m x y b := by
    intro x y b
    unfold bufferCellR bufferCell
    rw [calculatePixelR_id]
    rfl
  unfold bufferR buffer
  simp only [hcell, id]

/-- With no rounding the rounded `redrawAtScale` is the exact one. -/
theorem redrawAtScaleR_id (st : World) : redrawAtScaleR id st = redrawAtScale st := by
  unfold redrawAtScaleR redrawAtScale
  simp only [scaleR_id, bufferR_id, id]

/-! ## What rounding changes -/

/-- The doubles nearest to `0.7` and `0.98`, and the rounding of `4 + 2⁻⁶⁰` and
of `2¹⁰²⁴`. -/
theorem round64_values :
    round64 (fin (7 / 10)) = fin (3152519739159347 / 4503599627370496) ∧
    round64 (fin (98 / 100)) = fin (2206763817411543 / 2251799813685248) ∧
    round64 (fin (4 + 1 / 2 ^ 60)) = fin 4 ∧
    round64 (fin (2 ^ 1024)) = pinf := by
  decide!

/-- The rounding on well-known values: `0.1` and `1/3`; ties to even at
`2⁵³ + 1` and `2⁵³ + 3`; the largest double and the overflow threshold; the
smallest double, half of it and three halves of it. -/
theorem round64_landmarks :
    round64 (fin (1 / 10)) = fin (3602879701896397 / 36028797018963968) ∧
    round64 (fin (1 / 3)) = fin (6004799503160661 / 18014398509481984) ∧
    round64 (fin (2 ^ 53 + 1)) = fin (2 ^ 53) ∧
    round64 (fin (2 ^ 53 + 3)) = fin (2 ^ 53 + 4) ∧
    round64 (fin (2 ^ 1024 - 2 ^ 971)) = fin (2 ^ 1024 - 2 ^ 971) ∧
    round64 (fin (2 ^ 1024 - 2 ^ 970)) = pinf ∧
    round64 (fin (-(2 ^ 1024 - 2 ^ 970))) = ninf ∧
    round64 (fin (2 ^ 1024 - 2 ^ 970 - 1)) = fin (2 ^ 1024 - 2 ^ 971) ∧
    round64 (fin (1 / 2 ^ 1074)) = fin (1 / 2 ^ 1074) ∧
    round64 (fin (1 / 2 ^ 1075)) = fin 0 ∧
    round64 (fin (3 / 2 ^ 1075)) = fin (1 / 2 ^ 1073) := by
  decide!

/-- C12, as stated, fails in the doubles of the code: `_scale(400, 0, 400,
-2.5, 0.7)` is `0.7000000000000002`, above `dstMax = 0.7`, because
`0.7 + 2.5` is rounded up; and `_scale(2¹⁰²³, -2¹⁰²³, 2¹⁰²³, 0, 1)` is `NaN`,
because `num - minVal` and `maxVal - minVal` overflow. -/
theorem scale_rounded_leaves_range :
    _scaleR round64 (fin 400) (fin 0) (fin 400) (fin (-5 / 2))
        (fin (3152519739159347 / 4503599627370496))
      = .returned (fin (788129934789837 / 1125899906842624)) ∧
    (3152519739159347 / 4503599627370496 : ℚ) < 788129934789837 / 1125899906842624 ∧
    _scaleR round64 (fin (2 ^ 1023)) (fin (-(2 ^ 1023))) (fin (2 ^ 1023)) (fin 0) (fin 1)
      = .returned nan := by
  decide!

/-- C7, as stated, fails in the doubles of the code: on the window
`[0, 4] × [0, 2⁻²⁹]` and a 2×2 buffer the pixel `(1, 1)` maps to
`c = (2, 2⁻³⁰)`, with `x0² + y0² = 4 + 2⁻⁶⁰ > 4`; the sum the code computes
is rounded to `4`, the loop makes a second pass and the count is `2`. -/
theorem escaped_point_second_pass :
    _scaleR round64 (fin 1) (fin 0) (fin 2) (fin 0) (fin 4) = .returned (fin 2) ∧
    _scaleR round64 (fin 1) (fin 0) (fin 2) (fin 0) (fin (1 / 2 ^ 29))
      = .returned (fin (1 / 2 ^ 30)) ∧
    (2 : ℚ) ^ 2 + (1 / 2 ^ 30) ^ 2 > 4 ∧
    _calculatePixelR round64 Globals.initial
      ⟨fin 2, fin 2, fin 0, fin 4, fin 0, fin (1 / 2 ^ 29), createGraphics (fin 4) (fin 4)⟩
      (fin 1) (fin 1) = .returned 2 := by
  decide!

/-- C6, as stated, fails in the doubles of the code: for the symmetric
window `[-2¹⁰²³, 2¹⁰²³] × [-1, 1]` and a 400×300 buffer, `xrBound - xlBound`
overflows, the centre pixel `(200, 150)` maps to `x0 = Infinity` and the
count is `1`, not `100`. -/
theorem centre_pixel_overflow :
    _scaleR round64 (fin 200) (fin 0) (fin 400) (fin (-(2 ^ 1023))) (fin (2 ^ 1023))
      = .returned pinf ∧
    _calculatePixelR round64 Globals.initial
      ⟨fin 400, fin 300, fin (-(2 ^ 1023)), fin (2 ^ 1023), fin (-1), fin 1,
        createGraphics (fin 800) (fin 600)⟩
      (fin 200) (fin 150) = .returned 1 := by
  decide!

/-! ## The rounded commit -/

theorem scaleR_eq (rnd : JSNum → JSNum) (num minVal maxVal lRange rRange : JSNum) :
    _scaleR rnd num minVal maxVal lRange rRange
      = .returned (rnd (rnd (rnd (rRange - lRange)
          * rnd (rnd (num - minVal) / rnd (maxVal - minVal))) + lRange)) := rfl

theorem bufferCellR_returns (rnd : JSNum → JSNum) (g : Globals) (m : Mandelbrot) (x y : ℕ)
    (buff : Graphics) : ∃ b, bufferCellR rnd g m x y buff = .returned b :=
  ⟨_, rfl⟩

/-- The rounded `buffer()` returns when neither buffer dimension is
`Infinity`, and changes only `buff`. -/
theorem bufferR_returns (rnd : JSNum → JSNum) (g : Globals) (m : Mandelbrot)
    (hw : m.width ≠ pinf) (hh : m.height ≠ pinf) :
    ∃ b, bufferR rnd g m = .returned { m with buff := b } := by
  obtain ⟨b, hb⟩ := forLoop_returns m.width
    (fun x b => forLoop m.height (fun y b => bufferCellR rnd g m x y b) b) hw
    (fun x b => forLoop_returns m.height _ hh (fun y b => bufferCellR_returns rnd g m x y b) b)
    (createGraphics (rnd (m.width * g.scaleFactor)) (rnd (m.height * g.scaleFactor)))
  exact ⟨b, by simp [bufferR, hb]⟩

theorem bufferR_not_threw (rnd : JSNum → JSNum) (g : Globals) (m : Mandelbrot) (e : ErrorKind) :
    bufferR rnd g m ≠ .threw e :=
  Outcome.bind_not_threw _ _
    (forLoop_not_threw m.width
      (fun x b => forLoop m.height (fun y b => bufferCellR rnd g m x y b) b)
      (fun _ b e => forLoop_not_threw m.height _
        (fun _ _ _ => fun h => Outcome.noConfusion h) b e)
      (createGraphics (rnd (m.width * g.scaleFactor)) (rnd (m.height * g.scaleFactor))))
    (fun _ _ => fun h => Outcome.noConfusion h) e

/-- The rounded commit, step by step: given the four rescaled bounds, it
stores them, resets the pending transform and renders. -/
theorem redrawAtScaleR_eq (rnd : JSNum → JSNum) (st : World) (xl1 xr1 yl1 yr1 : JSNum)
    (hxl : _scaleR rnd (screenLeftBorderR rnd st.Canvas) (fin 0) st.Canvas.width
      st.m.xlBound st.m.xrBound = .returned xl1)
    (hxr : _scaleR rnd (screenRightBorderR rnd st.Canvas) (fin 0) st.Canvas.width
      st.m.xlBound st.m.xrBound = .returned xr1)
    (hyl : _scaleR rnd (screenTopBorderR rnd st.Canvas) (fin 0) st.Canvas.height
      st.m.ylBound st.m.yrBound = .returned yl1)
    (hyr : _scaleR rnd (screenBottomBorderR rnd st.Canvas) (fin 0) st.Canvas.height
      st.m.ylBound st.m.yrBound = .returned yr1) :
    redrawAtScaleR rnd st =
      (bufferR rnd st.globals
        { st.m with xlBound := xl1, xrBound := xr1, ylBound := yl1, yrBound := yr1 } >>= fun m =>
        .returned { st with
          Canvas := { st.Canvas with x := fin 0, y := fin 0, zoom := fin 1 }
          m := m }) := by
  rw [scaleR_eq] at hxl hxr hyl hyr
  cases hxl
  cases hxr
  cases hyl
  cases hyr
  rfl

/-- The rounded commit returns when neither buffer dimension is `Infinity`. -/
theorem redrawAtScaleR_returns (rnd : JSNum → JSNum) (st : World) (xl1 xr1 yl1 yr1 : JSNum)
    (hxl : _scaleR rnd (screenLeftBorderR rnd st.Canvas) (fin 0) st.Canvas.width
      st.m.xlBound st.m.xrBound = .returned xl1)
    (hxr : _scaleR rnd (screenRightBorderR rnd st.Canvas) (fin 0) st.Canvas.width
      st.m.xlBound st.m.xrBound = .returned xr1)
    (hyl : _scaleR rnd (screenTopBorderR rnd st.Canvas) (fin 0) st.Canvas.height
      st.m.ylBound st.m.yrBound = .returned yl1)
    (hyr : _scaleR rnd (screenBottomBorderR rnd st.Canvas) (fin 0) st.Canvas.height
      st.m.ylBound st.m.yrBound = .returned yr1)
    (hw : st.m.width ≠ pinf) (hh : st.m.height ≠ pinf) :
    ∃ b, redrawAtScaleR rnd st = .returned
      { st with
        Canvas := { st.Canvas with x := fin 0, y := fin 0, zoom := fin 1 }
        m := { st.m with
          xlBound := xl1, xrBound := xr1, ylBound := yl1, yrBound := yr1, buff := b } } := by
  obtain ⟨b, hb⟩ := bufferR_returns rnd st.globals
    { st.m with xlBound := xl1, xrBound := xr1, ylBound := yl1, yrBound := yr1 } hw hh
  exact ⟨b, by rw [redrawAtScaleR_eq rnd st xl1 xr1 yl1 yr1 hxl hxr hyl hyr, hb]; rfl⟩

/-- The rounded commit never throws. -/
theorem redrawAtScaleR_not_threw (rnd : JSNum → JSNum) (st : World) (e : ErrorKind) :
    redrawAtScaleR rnd st ≠ .threw e := by
  rw [redrawAtScaleR_eq rnd st _ _ _ _ (scaleR_eq _ _ _ _ _ _) (scaleR_eq _ _ _ _ _ _)
    (scaleR_eq _ _ _ _ _ _) (scaleR_eq _ _ _ _ _ _)]
  exact Outcome.bind_not_threw _ _ (bufferR_not_threw _ _ _)
    (fun _ _ => fun h => Outcome.noConfusion h) e

/-- C3, amended: for every pending transform with zoom ≤ 0, whatever the
rounding of the arithmetic (`round64` for the doubles of the code, `id` for
exact arithmetic), the commit does not fail: it does not throw, and when
neither buffer dimension is `Infinity` it returns, with the pending
transform reset and each of the four bounds overwritten by `_scale` of its
screen border over the prior bounds, as for any other zoom. -/
theorem commit_never_fails (rnd : JSNum → JSNum) (st : World)
    (_hz : le st.Canvas.zoom (fin 0) = true)
    (hw : st.m.width ≠ pinf) (hh : st.m.height ≠ pinf) :
    (∀ e, redrawAtScaleR rnd st ≠ .threw e) ∧
    ∃ st1, redrawAtScaleR rnd st = .returned st1 ∧
      st1.Canvas = { st.Canvas with x := fin 0, y := fin 0, zoom := fin 1 } ∧
      _scaleR rnd (screenLeftBorderR rnd st.Canvas) (fin 0) st.Canvas.width
        st.m.xlBound st.m.xrBound = .returned st1.m.xlBound ∧
      _scaleR rnd (screenRightBorderR rnd st.Canvas) (fin 0) st.Canvas.width
        st.m.xlBound st.m.xrBound = .returned st1.m.xrBound ∧
      _scaleR rnd (screenTopBorderR rnd st.Canvas) (fin 0) st.Canvas.height
        st.m.ylBound st.m.yrBound = .returned st1.m.ylBound ∧
      _scaleR rnd (screenBottomBorderR rnd st.Canvas) (fin 0) st.Canvas.height
        st.m.ylBound st.m.yrBound = .returned st1.m.yrBound := by
  obtain ⟨b, hb⟩ := redrawAtScaleR_returns rnd st _ _ _ _ (scaleR_eq _ _ _ _ _ _)
    (scaleR_eq _ _ _ _ _ _) (scaleR_eq _ _ _ _ _ _) (scaleR_eq _ _ _ _ _ _) hw hh
  exact ⟨redrawAtScaleR_not_threw rnd st, _, hb, rfl, scaleR_eq _ _ _ _ _ _,
    scaleR_eq _ _ _ _ _ _, scaleR_eq _ _ _ _ _ _, scaleR_eq _ _ _ _ _ _⟩

/-- C3, amended, in the doubles of the code on the canvas 800×600 with the
initial bounds, no pan and zoom `-1`: the commit does not throw and returns
with the bounds overwritten by `(1, -5/2)` and `(1, -1)`. -/
theorem commit_never_fails_witness :
    (∀ e, redrawAtScaleR round64
        ⟨Globals.initial, ⟨fin 800, fin 600, fin (-1), fin 0, fin 0⟩,
          ⟨fin 400, fin 300, fin (-5/2), fin 1, fin (-1), fin 1,
            createGraphics (fin 800) (fin 600)⟩, false, nan, nan⟩ ≠ .threw e) ∧
    ∃ st1, redrawAtScaleR round64
        ⟨Globals.initial, ⟨fin 800, fin 600, fin (-1), fin 0, fin 0⟩,
          ⟨fin 400, fin 300, fin (-5/2), fin 1, fin (-1), fin 1,
            createGraphics (fin 800) (fin 600)⟩, false, nan, nan⟩ = .returned st1 ∧
      st1.Canvas = ⟨fin 800, fin 600, fin 1, fin 0, fin 0⟩ ∧
      st1.m.xlBound = fin 1 ∧ st1.m.xrBound = fin (-5/2) ∧
      st1.m.ylBound = fin 1 ∧ st1.m.yrBound = fin (-1) := by
  obtain ⟨h0, st1, h, hC, h1, h2, h3, h4⟩ := commit_never_fails round64
    ⟨Globals.initial, ⟨fin 800, fin 600, fin (-1), fin 0, fin 0⟩,
      ⟨fin 400, fin 300, fin (-5/2), fin 1, fin (-1), fin 1,
        createGraphics (fin 800) (fin 600)⟩, false, nan, nan⟩
    (by decide!) (by simp) (by simp)
  have e1 : _scaleR round64 (screenLeftBorderR round64 ⟨fin 800, fin 600, fin (-1), fin 0, fin 0⟩)
      (fin 0) (fin 800) (fin (-5/2)) (fin 1) = .returned (fin 1) := by decide!
  have e2 : _scaleR round64 (screenRightBorderR round64 ⟨fin 800, fin 600, fin (-1), fin 0, fin 0⟩)
      (fin 0) (fin 800) (fin (-5/2)) (fin 1) = .returned (fin (-5/2)) := by decide!
  have e3 : _scaleR round64 (screenTopBorderR round64 ⟨fin 800, fin 600, fin (-1), fin 0, fin 0⟩)
      (fin 0) (fin 600) (fin (-1)) (fin 1) = .returned (fin 1) := by decide!
  have e4 : _scaleR round64 (screenBottomBorderR round64 ⟨fin 800, fin 600, fin (-1), fin 0, fin 0⟩)
      (fin 0) (fin 600) (fin (-1)) (fin 1) = .returned (fin (-1)) := by decide!
  exact ⟨h0, st1, h, hC, (Outcome.returned.inj (h1.symm.trans e1)),
    (Outcome.returned.inj (h2.symm.trans e2)), (Outcome.returned.inj (h3.symm.trans e3)),
    (Outcome.returned.inj (h4.symm.trans e4))⟩

/-- C15, as stated, fails in the doubles of the code: on the canvas 800×600
with the initial bounds, no pan and the zoom `0.98` that one press of `[`
leaves, the commit returns with the identity transform and
`yrBound = 1.020408163265306`; the commit repeated at once returns
`yrBound = 1.0204081632653057`, because `(yr - yl) · 1 + yl` is rounded. -/
theorem repeated_commit_moves_bound :
    round64 (fin 1 * round64 (fin (98 / 100))) = fin (2206763817411543 / 2251799813685248) ∧
    (1148877455961861 / 1125899906842624 : ℚ) ≠ 4595509823847443 / 4503599627370496 ∧
    ∃ b1 b2,
      redrawAtScaleR round64
          ⟨Globals.initial,
            ⟨fin 800, fin 600, fin (2206763817411543 / 2251799813685248), fin 0, fin 0⟩,
            ⟨fin 400, fin 300, fin (-5/2), fin 1, fin (-1), fin 1,
              createGraphics (fin 800) (fin 600)⟩, false, nan, nan⟩
        = .returned ⟨Globals.initial, ⟨fin 800, fin 600, fin 1, fin 0, fin 0⟩,
            ⟨fin 400, fin 300,
              fin (-2854960478065225 / 1125899906842624),
              fin (1166110617801289 / 1125899906842624),
              fin (-4595509823847445 / 4503599627370496),
              fin (1148877455961861 / 1125899906842624), b1⟩, false, nan, nan⟩ ∧
      redrawAtScaleR round64
          ⟨Globals.initial, ⟨fin 800, fin 600, fin 1, fin 0, fin 0⟩,
            ⟨fin 400, fin 300,
              fin (-2854960478065225 / 1125899906842624),
              fin (1166110617801289 / 1125899906842624),
              fin (-4595509823847445 / 4503599627370496),
              fin (1148877455961861 / 1125899906842624), b1⟩, false, nan, nan⟩
        = .returned ⟨Globals.initial, ⟨fin 800, fin 600, fin 1, fin 0, fin 0⟩,
            ⟨fin 400, fin 300,
              fin (-2854960478065225 / 1125899906842624),
              fin (1166110617801289 / 1125899906842624),
              fin (-4595509823847445 / 4503599627370496),
              fin (4595509823847443 / 4503599627370496), b2⟩, false, nan, nan⟩ := by
  refine ⟨by decide!, by decide!, ?_⟩
  obtain ⟨b1, h1⟩ := redrawAtScaleR_returns round64
    ⟨Globals.initial,
      ⟨fin 800, fin 600, fin (2206763817411543 / 2251799813685248), fin 0, fin 0⟩,
      ⟨fin 400, fin 300, fin (-5/2), fin 1, fin (-1), fin 1,
        createGraphics (fin 800) (fin 600)⟩, false, nan, nan⟩
    (fin (-2854960478065225 / 1125899906842624)) (fin (1166110617801289 / 1125899906842624))
    (fin (-4595509823847445 / 4503599627370496)) (fin (1148877455961861 / 1125899906842624))
    (by decide!) (by decide!) (by decide!) (by decide!) (by simp) (by simp)
  have f1 : _scaleR round64
      (screenLeftBorderR round64 ⟨fin 800, fin 600, fin 1, fin 0, fin 0⟩) (fin 0) (fin 800)
      (fin (-2854960478065225 / 1125899906842624)) (fin (1166110617801289 / 1125899906842624))
      = .returned (fin (-2854960478065225 / 1125899906842624)) := by decide!
  have f2 : _scaleR round64
      (screenRightBorderR round64 ⟨fin 800, fin 600, fin 1, fin 0, fin 0⟩) (fin 0) (fin 800)
      (fin (-2854960478065225 / 1125899906842624)) (fin (1166110617801289 / 1125899906842624))
      = .returned (fin (1166110617801289 / 1125899906842624)) := by decide!
  have f3 : _scaleR round64
      (screenTopBorderR round64 ⟨fin 800, fin 600, fin 1, fin 0, fin 0⟩) (fin 0) (fin 600)
      (fin (-4595509823847445 / 4503599627370496)) (fin (1148877455961861 / 1125899906842624))
      = .returned (fin (-4595509823847445 / 4503599627370496)) := by decide!
  have f4 : _scaleR round64
      (screenBottomBorderR round64 ⟨fin 800, fin 600, fin 1, fin 0, fin 0⟩) (fin 0) (fin 600)
      (fin (-4595509823847445 / 4503599627370496)) (fin (1148877455961861 / 1125899906842624))
      = .returned (fin (4595509823847443 / 4503599627370496)) := by decide!
  obtain ⟨b2, h2⟩ := redrawAtScaleR_returns round64
    ⟨Globals.initial, ⟨fin 800, fin 600, fin 1, fin 0, fin 0⟩,
      ⟨fin 400, fin 300,
        fin (-2854960478065225 / 1125899906842624),
        fin (1166110617801289 / 1125899906842624),
        fin (-4595509823847445 / 4503599627370496),
        fin (1148877455961861 / 1125899906842624), b1⟩, false, nan, nan⟩
    (fin (-2854960478065225 / 1125899906842624)) (fin (1166110617801289 / 1125899906842624))
    (fin (-4595509823847445 / 4503599627370496)) (fin (4595509823847443 / 4503599627370496))
    f1 f2 f3 f4 (by simp) (by simp)
  exact ⟨b1, b2, h1, h2⟩

/-- C16, as stated, fails in the doubles of the code: with the values of the
source, on the window `[0, 4] × [0, 2⁻²⁹]` and a 2×2 buffer the pixel
`(1, 1)` maps to `c = (2, 2⁻³⁰)`; the orbit `z_1 = c` has
`|z_1|² = 4 + 2⁻⁶⁰ > 4`, so the reference escape time is `1`, and the count
the code returns is `2`. -/
theorem escape_time_rounded :
    _scaleR round64 (fin 1) (fin 0) (fin 2) (fin 0) (fin 4) = .returned (fin 2) ∧
    _scaleR round64 (fin 1) (fin 0) (fin 2) (fin 0) (fin (1 / 2 ^ 29))
      = .returned (fin (1 / 2 ^ 30)) ∧
    refEscapeTime (2, 1 / 2 ^ 30) 100 = 1 ∧
    _calculatePixelR round64 Globals.initial
      ⟨fin 2, fin 2, fin 0, fin 4, fin 0, fin (1 / 2 ^ 29), createGraphics (fin 4) (fin 4)⟩
      (fin 1) (fin 1) = .returned 2 := by
  refine ⟨by decide!, by decide!, ?_, by decide!⟩
  have hex : ∃ n, n < 100 ∧ normSq (refOrbit ((2 : ℚ), (1 / 2 ^ 30 : ℚ)) n) > 4 := by
    refine ⟨1, by norm_num, ?_⟩
    norm_num [refOrbit, square_add, normSq]
  unfold refEscapeTime
  rw [dif_pos hex, Nat.find_eq_iff]
  refine ⟨⟨by norm_num, ?_⟩, ?_⟩
  · norm_num [refOrbit, square_add, normSq]
  · intro n hn
    interval_cases n
    norm_num [refOrbit, normSq]

end FractalExplorer
